import Mathlib

/-!
Verification of the core value-model / comparator and task-view subsystems of
`obsidian-dataview` (version 0.4.22), shallowly embedded from
`src/data-model/value.ts` (the `Values` namespace, `Groupings`, `Link`) and
`src/ui/views/task-view.tsx` (`nestItems`, `trimEndingLines`,
`setTaskCompletion`, `rewriteTask`).

Modelling conventions:
* JavaScript numbers are modelled as `JSNum`: `NaN`, the two infinities, and a
  rational magnitude standing for the finite doubles (`-0` and `0` are
  order-indistinguishable in JS, so a single rational models both).
* luxon `DateTime` is modelled by its instant (`millis`) plus a `zone`
  component standing for all data that `DateTime.equals` additionally compares
  (`<` uses only the instant, via `valueOf`).
* luxon `Duration` likewise: `millis` for `<`, plus the unit decomposition
  (`repr`) that `Duration.equals` additionally compares.
* `String.localeCompare` (with no locale argument) is modelled as ordinary
  lexicographic comparison returning `-1`, `0` or `1`.
* JavaScript `undefined` is the `Literal.undef` constructor; `typeof null ==
  "object"` and the `exec(undefined)`-coerces-to-`"undefined"` quirks are
  modelled explicitly where the source hits them.
-/

/-! ## Small JS string helpers -/

/-- JS `String.prototype.trim` whitespace (ASCII part). -/
def isTrimWs (c : Char) : Bool :=
  c == ' ' || c == '\t' || c == '\n' || c == '\r' || c == '\x0b' || c == '\x0c'

/-- JS `"...".trim()`. -/
def jsTrim (s : String) : String :=
  String.mk (((s.toList.dropWhile isTrimWs).reverse.dropWhile isTrimWs).reverse)

/-- Splitting on the regex `/\r?\n/u`: a `\r\n` pair or a lone `\n` ends a
line; a `\r` not followed by `\n` is ordinary content. -/
def splitReNAux : List Char → List Char → List String
  | [], acc => [String.mk acc.reverse]
  | '\r' :: '\n' :: rest, acc => String.mk acc.reverse :: splitReNAux rest []
  | '\n' :: rest, acc => String.mk acc.reverse :: splitReNAux rest []
  | c :: rest, acc => splitReNAux rest (c :: acc)

/-- JS `text.split(/\r?\n/u)`. -/
def splitLines (s : String) : List String := splitReNAux s.toList []

/-- JS `text.split("\n")` (plain one-character separator). -/
def splitNLAux : List Char → List Char → List String
  | [], acc => [String.mk acc.reverse]
  | '\n' :: rest, acc => String.mk acc.reverse :: splitNLAux rest []
  | c :: rest, acc => splitNLAux rest (c :: acc)

def splitNL (s : String) : List String := splitNLAux s.toList []

/-- JS `text.contains("\r")` (Obsidian adds `String.prototype.contains` as
substring test; for the single character `\r` this is character
membership). -/
def hasCR (s : String) : Bool := s.toList.contains '\r'

/-- Whitespace matched by the leading `/^\s*/u` of a single document line
(lines no longer contain `\n`; a stray `\r` can survive the split). -/
def isWsChar (c : Char) : Bool := c == ' ' || c == '\t' || c == '\r'

/-- JS `/^\s*/u.exec(line)[0]`: the leading whitespace of a line. -/
def leadingWs (s : String) : String := String.mk (s.toList.takeWhile isWsChar)

/-- JS `"a".localeCompare("b")` with the default locale, modelled as plain
lexicographic string comparison producing `-1`, `0` or `1`. -/
def strCmp (a b : String) : Int := if a < b then -1 else if a = b then 0 else 1

/-! ## The dynamic value model (`src/data-model/value.ts`) -/

/-- A JavaScript number as seen by `<` and `==`. -/
inductive JSNum where
  | nan
  | negInf
  | posInf
  | val (q : ℚ)
deriving DecidableEq

/-- JS `<` on numbers: `NaN` is incomparable, otherwise numeric order. -/
def JSNum.jsLt : JSNum → JSNum → Bool
  | .nan, _ => false
  | _, .nan => false
  | .negInf, .negInf => false
  | .negInf, _ => true
  | .posInf, _ => false
  | .val _, .negInf => false
  | .val a, .val b => decide (a < b)
  | .val _, .posInf => true

/-- JS `==` on numbers: `NaN` equals nothing, including itself. -/
def JSNum.jsEq : JSNum → JSNum → Bool
  | .nan, _ => false
  | _, .nan => false
  | .negInf, .negInf => true
  | .posInf, .posInf => true
  | .val a, .val b => decide (a = b)
  | _, _ => false

/-- luxon `DateTime`: the instant (`valueOf`, used by `<`) plus the zone
data that `DateTime.equals` additionally compares. -/
structure JSDate where
  millis : ℤ
  zone : String
deriving DecidableEq

/-- luxon `Duration`: total milliseconds (`valueOf`, used by `<`) plus the
unit decomposition that `Duration.equals` additionally compares. -/
structure JSDur where
  millis : ℤ
  units : String
deriving DecidableEq

inductive LinkType where
  | file
  | header
  | block
deriving DecidableEq

/-- The string the `type` field holds in the source (`"file" | "header" |
"block"`), as compared by `link1.type.localeCompare(link2.type)`. -/
def LinkType.toTag : LinkType → String
  | .file => "file"
  | .header => "header"
  | .block => "block"

/-- The Obsidian `Link` class (part_001:379-503). -/
structure Link where
  path : String
  display : Option String
  subpath : Option String
  embed : Bool
  type : LinkType
deriving DecidableEq

/-- `Link.file(path, embed = false, display?)` (part_001:392-400). -/
def Link.file (path : String) (embed : Bool := false)
    (display : Option String := none) : Link :=
  { path := path, embed := embed, display := display,
    subpath := none, type := LinkType.file }

/-- `Link.equals` (part_001:434-438): compares exactly path, type and
subpath; `display` and `embed` are not consulted. -/
def Link.equals (l other : Link) : Bool :=
  l.path == other.path && l.type == other.type && l.subpath == other.subpath

/-- The `Literal` union (part_001:21-32).  `undef` is JS `undefined`, which
the union's functions receive through `any`-typed calls; `html` and `func`
carry an opaque identity. -/
inductive Literal where
  | null
  | undef
  | bool (b : Bool)
  | num (n : JSNum)
  | str (s : String)
  | date (d : JSDate)
  | dur (d : JSDur)
  | link (l : Link)
  | arr (xs : List Literal)
  | obj (fields : List (String × Literal))
  | html (id : Nat)
  | func (id : Nat)

/-- JS `typeof`. -/
def jsTypeof : Literal → String
  | .null => "object"
  | .undef => "undefined"
  | .bool _ => "boolean"
  | .num _ => "number"
  | .str _ => "string"
  | .date _ => "object"
  | .dur _ => "object"
  | .link _ => "object"
  | .arr _ => "object"
  | .obj _ => "object"
  | .html _ => "object"
  | .func _ => "function"

def isHtml : Literal → Bool
  | .html _ => true
  | _ => false

def isArray : Literal → Bool
  | .arr _ => true
  | _ => false

def isDuration : Literal → Bool
  | .dur _ => true
  | _ => false

def isDate : Literal → Bool
  | .date _ => true
  | _ => false

def isLink : Literal → Bool
  | .link _ => true
  | _ => false

/-- `Values.isObject` (part_001:345-349): `typeof val == "object"` minus the
html/array/duration/date/link classes.  Because `typeof null == "object"`,
`isObject null = true`. -/
def isObject (v : Literal) : Bool :=
  jsTypeof v == "object" && !isHtml v && !isArray v && !isDuration v &&
    !isDate v && !isLink v

/-- The tag `wrapValue` (part_001:130-143) assigns.  On the `Literal` union
every value is classified (the `undefined` fall-through needs a value outside
the union); `null` and `undefined` both satisfy `isNull` and get tag
`"null"`. -/
def tagOf : Literal → String
  | .null => "null"
  | .undef => "null"
  | .num _ => "number"
  | .str _ => "string"
  | .bool _ => "boolean"
  | .dur _ => "duration"
  | .date _ => "date"
  | .html _ => "html"
  | .arr _ => "array"
  | .link _ => "link"
  | .func _ => "function"
  | .obj _ => "object"

/-! ## The comparator `Values.compareValue` (part_001:161-252) -/

/-- The `undefined`-to-`null` coercion at the top of `compareValue`
(part_001:163-164). -/
def coerceUndef : Literal → Literal
  | .undef => .null
  | v => v

theorem sizeOf_coerceUndef (v : Literal) : sizeOf (coerceUndef v) = sizeOf v := by
  cases v <;> rfl

/-- JS `o[key]` on an object: the field's value, or `undefined` when there is
no such key. -/
def lookupField : List (String × Literal) → String → Literal
  | [], _ => .undef
  | (k2, v) :: rest, k => if k2 = k then v else lookupField rest k

theorem sizeOf_lookupField_le (o : List (String × Literal)) (k : String) :
    sizeOf (lookupField o k) ≤ sizeOf o := by
  induction o with
  | nil => simp [lookupField, Literal.undef.sizeOf_spec]
  | cons p rest ih =>
    obtain ⟨k2, v⟩ := p
    simp only [lookupField]
    split
    · simp only [List.cons.sizeOf_spec, Prod.mk.sizeOf_spec]
      omega
    · simp only [List.cons.sizeOf_spec, Prod.mk.sizeOf_spec]
      omega

/-- `Object.keys`: the distinct keys of an object in insertion order (a JS
object cannot hold a key twice; on an association list we keep the first
occurrence). -/
def distinctKeysAux (seen : List String) : List String → List String
  | [] => []
  | k :: ks =>
    if k ∈ seen then distinctKeysAux seen ks
    else k :: distinctKeysAux (k :: seen) ks

def distinctKeys (ks : List String) : List String := distinctKeysAux [] ks

def objKeys (o : List (String × Literal)) : List String :=
  distinctKeys (o.map Prod.fst)

/-- JS `Array.prototype.sort()` on an array of strings sorts by code-unit
order; modelled as insertion sort under `≤` on `String`. -/
def insertSorted (x : String) : List String → List String
  | [] => [x]
  | y :: ys => if x ≤ y then x :: y :: ys else y :: insertSorted x ys

def sortStrings : List String → List String
  | [] => []
  | x :: xs => insertSorted x (sortStrings xs)

/-- `let k = Array.from(Object.keys(o)); k.sort()` (part_001:234-237). -/
def sortedKeys (o : List (String × Literal)) : List String :=
  sortStrings (objKeys o)

/-- `compareValue` applied to the two (string-)key arrays at part_001:239.
Equal to `compareValue` on the corresponding `Literal` arrays
(`compareValue_str_arrays` below): element-wise `localeCompare` over the
shared prefix, then the signed length difference. -/
def compareStringLists : List String → List String → Int
  | [], ys => -(ys.length : Int)
  | x :: xs, [] => ((x :: xs).length : Int)
  | x :: xs, y :: ys =>
    let c := strCmp x y
    if c ≠ 0 then c else compareStringLists xs ys

/-- JS truthiness of the optional `subpath` field (`undefined` and `""` are
falsy). -/
def subTruthy : Option String → Bool
  | none => false
  | some s => !(s == "")

/-- `link.subpath ?? ""`. -/
def subOrEmpty : Option String → String
  | none => ""
  | some s => s

/-- The subpath steps of the `case "link"` arm (part_001:204-210): a truthy
subpath sorts after a falsy one (`undefined` and `""` are both falsy), and
two truthy subpaths compare by `localeCompare`. -/
def subCmp (s1 s2 : Option String) : Int :=
  if subTruthy s1 && !subTruthy s2 then 1
  else if !subTruthy s1 && subTruthy s2 then -1
  else if !subTruthy s1 && !subTruthy s2 then 0
  else strCmp (subOrEmpty s1) (subOrEmpty s2)

/-- The `case "link"` arm of `compareValue` (part_001:191-210), with the
default identity `linkNormalizer` (recursive calls never pass one). -/
def linkCmp (l1 l2 : Link) : Int :=
  let pathCompare := strCmp l1.path l2.path
  if pathCompare ≠ 0 then pathCompare
  else
    let typeCompare := strCmp l1.type.toTag l2.type.toTag
    if typeCompare ≠ 0 then typeCompare
    else subCmp l1.subpath l2.subpath

/-- The `case "number"` arm (part_001:182-185): `v1 < v2 ? -1 : v1 == v2 ? 0
: 1`. -/
def numCmp (n1 n2 : JSNum) : Int :=
  if n1.jsLt n2 then -1 else if n1.jsEq n2 then 0 else 1

/-- The `case "date"` arm (part_001:211-216): `<` on the instant, then
`DateTime.equals`. -/
def dateCmp (d1 d2 : JSDate) : Int :=
  if d1.millis < d2.millis then -1 else if d1 = d2 then 0 else 1

/-- The `case "duration"` arm (part_001:217-222): `<` on total milliseconds,
then `Duration.equals`. -/
def durCmp (d1 d2 : JSDur) : Int :=
  if d1.millis < d2.millis then -1 else if d1 = d2 then 0 else 1

/-- The `case "boolean"` arm (part_001:188-190). -/
def boolCmp (b1 b2 : Bool) : Int :=
  if b1 == b2 then 0 else if b1 then 1 else -1

mutual

/-- `Values.compareValue` (part_001:161-252) with the default
`linkNormalizer`.  Coerces `undefined` to `null`, handles `null` as the
maximum element, compares differing tags by `localeCompare` of the tag
names, and otherwise dispatches on the shared tag. -/
def compareValue (val1 val2 : Literal) : Int :=
  compareCore (coerceUndef val1) (coerceUndef val2)
termination_by (sizeOf val1 + sizeOf val2 + 1, 0)
decreasing_by
  apply Prod.Lex.left
  simp only [sizeOf_coerceUndef]
  omega

/-- The body of `compareValue` after the `undefined` coercion. -/
def compareCore (a b : Literal) : Int :=
  match a, b with
  | .null, .null => 0
  | .null, _ => 1
  | _, .null => -1
  | .undef, .undef => 0
  | .str s1, .str s2 => strCmp s1 s2
  | .num n1, .num n2 => numCmp n1 n2
  | .bool b1, .bool b2 => boolCmp b1 b2
  | .link l1, .link l2 => linkCmp l1 l2
  | .date d1, .date d2 => dateCmp d1 d2
  | .dur d1, .dur d2 => durCmp d1 d2
  | .arr xs, .arr ys => compareList xs ys
  | .obj o1, .obj o2 => objCmp o1 o2
  | .html _, .html _ => 0
  | .func _, .func _ => 0
  | a, b => strCmp (tagOf a) (tagOf b)
termination_by (sizeOf a + sizeOf b, 1)
decreasing_by
  · apply Prod.Lex.left
    simp only [Literal.arr.sizeOf_spec]
    omega
  · apply Prod.Lex.left
    simp only [Literal.obj.sizeOf_spec]
    omega

/-- The `case "object"` arm (part_001:231-246): compare the sorted key
arrays first (via `compareValue` on string arrays, here
`compareStringLists`), then each key's value in sorted-key order. -/
def objCmp (o1 o2 : List (String × Literal)) : Int :=
  let k1 := sortedKeys o1
  let k2 := sortedKeys o2
  let keyCompare := compareStringLists k1 k2
  if keyCompare ≠ 0 then keyCompare else compareFieldsByKeys o1 o2 k1
termination_by (sizeOf o1 + sizeOf o2 + 1, (sortedKeys o1).length + 1)
decreasing_by
  apply Prod.Lex.right
  omega

/-- The `case "array"` arm (part_001:223-230): element-wise comparison over
the shared prefix, then `f1.length - f2.length`. -/
def compareList : List Literal → List Literal → Int
  | [], ys => -(ys.length : Int)
  | x :: xs, [] => ((x :: xs).length : Int)
  | x :: xs, y :: ys =>
    let c := compareValue x y
    if c ≠ 0 then c else compareList xs ys
termination_by xs ys => (sizeOf xs + sizeOf ys + 1, 0)
decreasing_by
  · apply Prod.Lex.left
    simp only [List.cons.sizeOf_spec]
    omega
  · apply Prod.Lex.left
    simp only [List.cons.sizeOf_spec]
    omega

/-- The per-key value loop of the `case "object"` arm (part_001:242-245). -/
def compareFieldsByKeys (o1 o2 : List (String × Literal)) :
    List String → Int
  | [] => 0
  | k :: ks =>
    let c := compareValue (lookupField o1 k) (lookupField o2 k)
    if c ≠ 0 then c else compareFieldsByKeys o1 o2 ks
termination_by ks => (sizeOf o1 + sizeOf o2 + 1, ks.length)
decreasing_by
  · have h1 := sizeOf_lookupField_le o1 k
    have h2 := sizeOf_lookupField_le o2 k
    rcases Nat.lt_or_ge (sizeOf (lookupField o1 k) + sizeOf (lookupField o2 k))
      (sizeOf o1 + sizeOf o2) with h | h
    · apply Prod.Lex.left
      omega
    · have e : sizeOf (lookupField o1 k) + sizeOf (lookupField o2 k) + 1 =
          sizeOf o1 + sizeOf o2 + 1 := by omega
      rw [e]
      apply Prod.Lex.right
      simp
  · apply Prod.Lex.right
    simp

end

/-! ## Fragments of the value space used by the order theorems -/

mutual

/-- No `NaN` occurs anywhere in the value. -/
def nanFree : Literal → Bool
  | .num .nan => false
  | .arr xs => nanFreeList xs
  | .obj o => nanFreeFields o
  | _ => true

def nanFreeList : List Literal → Bool
  | [] => true
  | x :: xs => nanFree x && nanFreeList xs

def nanFreeFields : List (String × Literal) → Bool
  | [] => true
  | (_, v) :: o => nanFree v && nanFreeFields o

end

mutual

/-- The well-behaved fragment: no `NaN`, every date in one fixed zone and
every duration in the canonical unit decomposition, so that the luxon
`equals` used by the comparator agrees with equality of magnitudes. -/
def goodLit : Literal → Bool
  | .num .nan => false
  | .date d => d.zone == "UTC"
  | .dur d => d.units == "milliseconds"
  | .arr xs => goodList xs
  | .obj o => goodFields o
  | _ => true

def goodList : List Literal → Bool
  | [] => true
  | x :: xs => goodLit x && goodList xs

def goodFields : List (String × Literal) → Bool
  | [] => true
  | (_, v) :: o => goodLit v && goodFields o

end

/-! ## `Groupings` (part_001:360-372) -/

/-- JS `"k" in obj`. -/
def hasKey (o : List (String × Literal)) (k : String) : Bool :=
  (o.map Prod.fst).contains k

/-- `Groupings.isElementGroup` (part_001:362-364):
`Values.isObject(entry) && Object.keys(entry).length == 2 && "key" in entry
&& "rows" in entry`.  Because `isObject null = true` and `Object.keys(null)`
throws a `TypeError`, the function throws on `null` (modelled by
`Except.error`). -/
def isElementGroup (entry : Literal) : Except String Bool :=
  if isObject entry then
    match entry with
    | .obj fields =>
      pure ((objKeys fields).length == 2 && hasKey fields "key" &&
        hasKey fields "rows")
    | _ => Except.error "TypeError"
  else pure false

/-- `Groupings.isGrouping` (part_001:367-371): every element is an element
group; the loop returns `false` at the first element that is not, so a later
`null` is never reached. -/
def isGrouping : List Literal → Except String Bool
  | [] => pure true
  | e :: rest =>
    match isElementGroup e with
    | .error s => .error s
    | .ok g => if !g then pure false else isGrouping rest

/-! ## Task nodes and the reconciler (task-view.tsx:174-200) -/

/-- A serialized list item / task node (§3 of the spec): identity is
`(path, line)`; `lineCount`, `text`, `symbol` and `status` feed the
rewriter. -/
inductive SListItem where
  | mk (path : String) (line : Nat) (lineCount : Nat) (text : String)
      (symbol : String) (status : String) (children : List SListItem)

def SListItem.path : SListItem → String
  | .mk p _ _ _ _ _ _ => p

def SListItem.line : SListItem → Nat
  | .mk _ l _ _ _ _ _ => l

def SListItem.lineCount : SListItem → Nat
  | .mk _ _ c _ _ _ _ => c

def SListItem.text : SListItem → String
  | .mk _ _ _ t _ _ _ => t

def SListItem.symbol : SListItem → String
  | .mk _ _ _ _ s _ _ => s

def SListItem.status : SListItem → String
  | .mk _ _ _ _ _ s _ => s

def SListItem.children : SListItem → List SListItem
  | .mk _ _ _ _ _ _ cs => cs

/-- `listId` (task-view.tsx:174-176): `item.path + ":" + item.line`. -/
def listId (item : SListItem) : String :=
  item.path ++ ":" ++ toString item.line

/-- JS `Set.prototype.add`: membership-preserving insertion. -/
def setAdd (s : List String) (x : String) : List String :=
  if x ∈ s then s else s ++ [x]

mutual

/-- `listChildren` (task-view.tsx:179-188): adds the identity of every
strict descendant of `item` to `output`. -/
def listChildren (item : SListItem) (output : List String) : List String :=
  listChildrenList item.children output
termination_by (sizeOf item, 0)
decreasing_by
  apply Prod.Lex.left
  cases item
  simp [SListItem.children]

def listChildrenList : List SListItem → List String → List String
  | [], output => output
  | child :: rest, output =>
    listChildrenList rest (listChildren child (setAdd output (listId child)))
termination_by items _ => (sizeOf items, 1)
decreasing_by
  all_goals apply Prod.Lex.left
  all_goals simp
  all_goals omega

end

/-- `nestItems` (task-view.tsx:191-200): collects all strict-descendant
identities into `seen` and every input root's identity into `mask`; returns
the roots whose identity is not in `seen`, together with `mask`. -/
def nestItems (raw : List SListItem) : List SListItem × List String :=
  let sm := raw.foldl
    (fun (p : List String × List String) item =>
      (listChildren item p.1, setAdd p.2 (listId item)))
    ([], [])
  (raw.filter (fun t => !(sm.1.contains (listId t))), sm.2)

/-! ## Task manipulation (task-view.tsx:206-256) -/

/-- The dead trim-index computation of `trimEndingLines`
(task-view.tsx:209-210): `while (trim > 0 && parts[trim].trim() == "")
trim--`. -/
def trimIndex (parts : List String) : Nat → Nat
  | 0 => 0
  | n + 1 => if jsTrim (parts.getD (n + 1) "") == "" then trimIndex parts n
             else n + 1

/-- `trimEndingLines` (task-view.tsx:207-213).  The source computes the trim
index but then joins ALL split parts (`parts.join("\n")`), so no line is
actually dropped; only the line endings are normalized to `\n`. -/
def trimEndingLines (text : String) : String :=
  let parts := splitLines text
  let _trim := trimIndex parts (parts.length - 1)
  String.intercalate "\n" parts

/-- Modelled from the spec: `setInlineField` (from
`data-import/inline-field`, which is not under `src/`).  Per §4.5, removing
(`value = none`) deletes the tracked `key` inline-field annotation
`[key:: value]` from the text, leaving a text without the annotation
unchanged; setting (`value = some v`) removes any existing annotation and
appends `[key:: v]` to the text. -/
def fieldPrefixMatches : List Char → List Char → Bool
  | [], _ => true
  | _ :: _, [] => false
  | p :: ps, c :: cs => p == c && fieldPrefixMatches ps cs

def removeFieldAux (marker : List Char) : List Char → Option (List Char)
  | [] => none
  | c :: rest =>
    if fieldPrefixMatches marker (c :: rest) then
      some ((((c :: rest).drop marker.length).dropWhile
        (fun x => !(x == ']'))).drop 1)
    else
      match removeFieldAux marker rest with
      | none => none
      | some r => some (c :: r)

def setInlineField (text key : String) (value : Option String) : String :=
  let marker := ("[" ++ key ++ ":: ").toList
  match value with
  | none =>
    match removeFieldAux marker text.toList with
    | none => text
    | some cs => String.mk cs
  | some v =>
    let base := match removeFieldAux marker text.toList with
      | none => text.toList
      | some cs => cs
    String.mk base ++ " [" ++ key ++ ":: " ++ v ++ "]"

/-- `setTaskCompletion` (task-view.tsx:216-222).  The completion-date stamp
`DateTime.now().toISODate()` is an ambient clock read in the source; it is
passed here explicitly as `today`. -/
def setTaskCompletion (originalText completionKey : String) (complete : Bool)
    (today : String := "") : String :=
  if !complete then
    trimEndingLines (setInlineField originalText completionKey none)
  else
    let parts := splitLines originalText
    let parts2 := parts.set (parts.length - 1)
      (setInlineField (parts.getD (parts.length - 1) "") completionKey
        (some today))
    String.intercalate "\n" parts2

/-! ## The rewriter `rewriteTask` (task-view.tsx:225-256) -/

/-- Modelled from the spec: the list-item line grammar of `LIST_ITEM_REGEX`
(from `data-import/markdown-file`, which is not under `src/`).  Per §6 it is
"leading whitespace, a marker (`-`, `*`, `+`, or a numbered-list token),
optional `[<statusChar>]` checkbox, then body text"; the marker here is the
rest of the line after the marker, optional checkbox and intervening
whitespace.  Returns the captured body, or `none` when the line fails the
grammar. -/
def parseMarker : List Char → Option (List Char)
  | '-' :: rest => some rest
  | '*' :: rest => some rest
  | '+' :: rest => some rest
  | cs =>
    let digits := cs.takeWhile Char.isDigit
    if digits.isEmpty then none
    else
      match cs.dropWhile Char.isDigit with
      | '.' :: rest => some rest
      | ')' :: rest => some rest
      | _ => none

/-- The optional `[<statusChar>]` checkbox (at most one status character,
matched greedily). -/
def parseCheckbox : List Char → Option (String × List Char)
  | '[' :: c :: ']' :: rest => some (String.mk [c], rest)
  | '[' :: ']' :: rest => some ("", rest)
  | _ => none

/-- Modelled from the spec: the captured body of a list-item line (§4.5 step
4: "Re-match the addressed line against the list-item grammar (marker,
optional checkbox, body)"). -/
def listItemBody (line : String) : Option String :=
  let cs := (line.toList).dropWhile isWsChar
  match parseMarker cs with
  | none => none
  | some rest =>
    let afterWs := rest.dropWhile isWsChar
    match parseCheckbox afterWs with
    | some (_, r) => some (String.mk (r.dropWhile isWsChar))
    | none => some (String.mk afterWs)

/-- The observable effect of one `rewriteTask` call on the document store:
`noop` is the early return before any I/O (task-view.tsx:226), `abortAfterRead`
is a silent staleness abort after the read (lines 233-238), and `write t`
is the single final write of the whole new document text (line 255). -/
inductive RewriteResult where
  | noop
  | abortAfterRead
  | write (text : String)
deriving DecidableEq

/-- `rewriteTask` (task-view.tsx:225-256), as a function of the text the
vault read would return for `task.path`.  Out-of-range line access mirrors
JS: `filetext[task.line]` is `undefined`, which `LIST_ITEM_REGEX.exec`
coerces to the string `"undefined"` (which fails the grammar). -/
def rewriteTask (fileContents : String) (task : SListItem)
    (desiredStatus : String) (desiredText : Option String) : RewriteResult :=
  if desiredStatus = task.status ∧
      (desiredText = none ∨ desiredText = some task.text) then .noop
  else
    let desiredStatus2 := if desiredStatus = "" then " " else desiredStatus
    let hasRN := hasCR fileContents
    let filetext := splitLines fileContents
    if filetext.length < task.line then .abortAfterRead
    else
      match listItemBody (filetext.getD task.line "undefined") with
      | none => .abortAfterRead
      | some body =>
        if body.length = 0 then .abortAfterRead
        else
          let taskTextParts := splitNL task.text
          if jsTrim (taskTextParts.getD 0 "") ≠ jsTrim body then .abortAfterRead
          else
            let initialSpacing := leadingWs (filetext.getD task.line "undefined")
            let newFiletext :=
              match desiredText with
              | some dt =>
                if dt ≠ "" then
                  let desiredParts := splitNL dt
                  let newTextLines :=
                    (initialSpacing ++ task.symbol ++ " [" ++ desiredStatus2 ++
                      "] " ++ desiredParts.getD 0 "") ::
                    (desiredParts.drop 1).map
                      (fun l => initialSpacing ++ "\t" ++ l)
                  filetext.take task.line ++ newTextLines ++
                    filetext.drop (task.line + task.lineCount)
                else
                  -- JS `if (desiredText)`: the empty string is falsy, so an
                  -- empty replacement takes the status-only branch.
                  filetext.set task.line
                    (initialSpacing ++ task.symbol ++ " [" ++ desiredStatus2 ++
                      "] " ++ jsTrim (taskTextParts.getD 0 ""))
              | none =>
                filetext.set task.line
                  (initialSpacing ++ task.symbol ++ " [" ++ desiredStatus2 ++
                    "] " ++ jsTrim (taskTextParts.getD 0 ""))
            .write (String.intercalate (if hasRN then "\r\n" else "\n")
              newFiletext)

/-- The document store (path ↦ text) after one `rewriteTask` call: a
`write` replaces the text stored at `task.path`; `noop` and a staleness
abort leave the store untouched. -/
def rewriteTaskVault (vault : String → String) (task : SListItem)
    (desiredStatus : String) (desiredText : Option String) :
    String → String :=
  match rewriteTask (vault task.path) task desiredStatus desiredText with
  | .write t => fun p => if p = task.path then t else vault p
  | _ => vault

theorem strCmp_self (a : String) : strCmp a a = 0 := by
  simp [strCmp]

theorem strCmp_eq_zero_iff (a b : String) : strCmp a b = 0 ↔ a = b := by
  unfold strCmp
  split_ifs with h1 h2
  · constructor
    · intro h; norm_num at h
    · intro he; subst he; exact absurd h1 (lt_irrefl _)
  · simp [h2]
  · simp [h2]

theorem strCmp_neg_iff (a b : String) : strCmp a b < 0 ↔ a < b := by
  unfold strCmp
  split_ifs with h1 h2
  · simp [h1]
  · subst h2; simp
  · constructor
    · intro h; norm_num at h
    · intro h; exact absurd h h1

theorem strCmp_flip (a b : String) : strCmp b a = -(strCmp a b) := by
  unfold strCmp
  rcases lt_trichotomy a b with h | h | h
  · rw [if_neg (asymm h), if_neg (ne_of_gt h), if_pos h]
    norm_num
  · subst h; simp
  · rw [if_pos h, if_neg (asymm h), if_neg (ne_of_lt h).symm]

theorem strCmp_trans {a b c : String} (h1 : strCmp a b < 0) (h2 : strCmp b c < 0) :
    strCmp a c < 0 := by
  rw [strCmp_neg_iff] at *
  exact lt_trans h1 h2

theorem strCmp_pos_iff (a b : String) : 0 < strCmp a b ↔ b < a := by
  rw [strCmp_flip b a]
  constructor
  · intro h
    have : strCmp b a < 0 := by omega
    exact (strCmp_neg_iff b a).1 this
  · intro h
    have : strCmp b a < 0 := (strCmp_neg_iff b a).2 h
    omega

theorem jsEq_eq {a b : JSNum} (h : a.jsEq b = true) : a = b := by
  cases a <;> cases b <;> simp_all [JSNum.jsEq]

theorem numCmp_self {n : JSNum} (h : n ≠ .nan) : numCmp n n = 0 := by
  cases n <;> simp_all [numCmp, JSNum.jsLt, JSNum.jsEq]

theorem numCmp_zero_eq {a b : JSNum} (h : numCmp a b = 0) : a = b := by
  unfold numCmp at h
  split_ifs at h with h1 h2
  · exact jsEq_eq h2
  · norm_num at h

theorem numCmp_neg_iff (a b : JSNum) : numCmp a b < 0 ↔ a.jsLt b = true := by
  unfold numCmp
  split_ifs with h1 h2
  · simp [h1]
  · simp [h1]
  · simp [h1]

theorem jsLt_trans {a b c : JSNum} (h1 : a.jsLt b = true) (h2 : b.jsLt c = true) :
    a.jsLt c = true := by
  cases a <;> cases b <;> cases c <;> simp_all [JSNum.jsLt]
  exact lt_trans h1 h2

theorem numCmp_flip {a b : JSNum} (ha : a ≠ .nan) (hb : b ≠ .nan) :
    numCmp b a = -(numCmp a b) := by
  cases a with
  | nan => exact absurd rfl ha
  | negInf =>
    cases b with
    | nan => exact absurd rfl hb
    | negInf => decide
    | posInf => decide
    | val q => norm_num [numCmp, JSNum.jsLt, JSNum.jsEq]
  | posInf =>
    cases b with
    | nan => exact absurd rfl hb
    | negInf => decide
    | posInf => decide
    | val q => norm_num [numCmp, JSNum.jsLt, JSNum.jsEq]
  | val q1 =>
    cases b with
    | nan => exact absurd rfl hb
    | negInf => norm_num [numCmp, JSNum.jsLt, JSNum.jsEq]
    | posInf => norm_num [numCmp, JSNum.jsLt, JSNum.jsEq]
    | val q2 =>
      rcases lt_trichotomy q1 q2 with h | h | h
      · simp [numCmp, JSNum.jsLt, JSNum.jsEq, h, asymm h, ne_of_gt h]
      · subst h
        simp [numCmp, JSNum.jsLt, JSNum.jsEq]
      · simp [numCmp, JSNum.jsLt, JSNum.jsEq, h, asymm h, ne_of_gt h]

theorem dateCmp_self (d : JSDate) : dateCmp d d = 0 := by
  simp [dateCmp]

theorem dateCmp_zero_eq {a b : JSDate} (h : dateCmp a b = 0) : a = b := by
  unfold dateCmp at h
  split_ifs at h with h1 h2
  · exact h2
  · norm_num at h

theorem dateCmp_neg_iff (a b : JSDate) : dateCmp a b < 0 ↔ a.millis < b.millis := by
  unfold dateCmp
  split_ifs with h1 h2
  · simp [h1]
  · subst h2; simp
  · simp [h1]

theorem dateCmp_flip {a b : JSDate} (ha : a.zone = "UTC") (hb : b.zone = "UTC") :
    dateCmp b a = -(dateCmp a b) := by
  unfold dateCmp
  rcases lt_trichotomy a.millis b.millis with h | h | h
  · have hne : b ≠ a := fun he => by rw [he] at h; exact lt_irrefl _ h
    rw [if_neg (by omega), if_neg hne, if_pos h]
    norm_num
  · have he : a = b := by
      cases a; cases b; simp_all
    subst he; simp
  · have hne : a ≠ b := fun he => by rw [he] at h; exact lt_irrefl _ h
    rw [if_pos h, if_neg (by omega), if_neg hne]

theorem durCmp_self (d : JSDur) : durCmp d d = 0 := by
  simp [durCmp]

theorem durCmp_zero_eq {a b : JSDur} (h : durCmp a b = 0) : a = b := by
  unfold durCmp at h
  split_ifs at h with h1 h2
  · exact h2
  · norm_num at h

theorem durCmp_neg_iff (a b : JSDur) : durCmp a b < 0 ↔ a.millis < b.millis := by
  unfold durCmp
  split_ifs with h1 h2
  · simp [h1]
  · subst h2; simp
  · simp [h1]

theorem durCmp_flip {a b : JSDur} (ha : a.units = "milliseconds")
    (hb : b.units = "milliseconds") : durCmp b a = -(durCmp a b) := by
  unfold durCmp
  rcases lt_trichotomy a.millis b.millis with h | h | h
  · have hne : b ≠ a := fun he => by rw [he] at h; exact lt_irrefl _ h
    rw [if_neg (by omega), if_neg hne, if_pos h]
    norm_num
  · have he : a = b := by
      cases a; cases b; simp_all
    subst he; simp
  · have hne : a ≠ b := fun he => by rw [he] at h; exact lt_irrefl _ h
    rw [if_pos h, if_neg (by omega), if_neg hne]

theorem boolCmp_self (b : Bool) : boolCmp b b = 0 := by
  cases b <;> rfl

theorem boolCmp_zero_eq {a b : Bool} (h : boolCmp a b = 0) : a = b := by
  cases a <;> cases b <;> simp_all [boolCmp]

theorem boolCmp_flip (a b : Bool) : boolCmp b a = -(boolCmp a b) := by
  cases a <;> cases b <;> decide

theorem boolCmp_neg_iff (a b : Bool) : boolCmp a b < 0 ↔ (a = false ∧ b = true) := by
  cases a <;> cases b <;> decide

theorem subCmp_self (s : Option String) : subCmp s s = 0 := by
  unfold subCmp
  cases h : subTruthy s <;> simp [h, strCmp_self]

theorem subCmp_flip (s1 s2 : Option String) : subCmp s2 s1 = -(subCmp s1 s2) := by
  unfold subCmp
  cases h1 : subTruthy s1 <;> cases h2 : subTruthy s2 <;> simp [h1, h2]
  exact strCmp_flip _ _

theorem subCmp_zero_subst {s1 s2 : Option String} (h : subCmp s1 s2 = 0)
    (s3 : Option String) : subCmp s1 s3 = subCmp s2 s3 := by
  unfold subCmp at *
  cases h1 : subTruthy s1 <;> cases h2 : subTruthy s2 <;>
    simp [h1, h2] at h <;>
    cases h3 : subTruthy s3 <;>
    simp [h1, h2, h3]
  rw [(strCmp_eq_zero_iff _ _).1 h]

theorem subCmp_trans {s1 s2 s3 : Option String} (h1 : subCmp s1 s2 < 0)
    (h2 : subCmp s2 s3 < 0) : subCmp s1 s3 < 0 := by
  unfold subCmp at *
  cases t1 : subTruthy s1 <;> cases t2 : subTruthy s2 <;>
    cases t3 : subTruthy s3 <;>
    simp_all
  all_goals first
    | omega
    | exact strCmp_trans h1 h2

theorem linkCmp_self (l : Link) : linkCmp l l = 0 := by
  simp [linkCmp, strCmp_self, subCmp_self]

theorem linkCmp_eq (a b : Link) : linkCmp a b =
    if strCmp a.path b.path ≠ 0 then strCmp a.path b.path
    else if strCmp a.type.toTag b.type.toTag ≠ 0 then strCmp a.type.toTag b.type.toTag
    else subCmp a.subpath b.subpath := rfl

theorem linkCmp_flip (a b : Link) : linkCmp b a = -(linkCmp a b) := by
  have hfp := strCmp_flip a.path b.path
  have hft := strCmp_flip a.type.toTag b.type.toTag
  have hfs := subCmp_flip a.subpath b.subpath
  rw [linkCmp_eq, linkCmp_eq]
  split_ifs <;> omega

theorem linkCmp_zero_subst {a b : Link} (h : linkCmp a b = 0) (c : Link) :
    linkCmp a c = linkCmp b c := by
  unfold linkCmp at *
  by_cases hp : strCmp a.path b.path = 0
  · rw [if_neg (fun hc => hc hp)] at h
    have hpe : a.path = b.path := (strCmp_eq_zero_iff _ _).1 hp
    by_cases ht : strCmp a.type.toTag b.type.toTag = 0
    · rw [if_neg (fun hc => hc ht)] at h
      have hte : a.type.toTag = b.type.toTag := (strCmp_eq_zero_iff _ _).1 ht
      rw [hpe, hte, subCmp_zero_subst h c.subpath]
    · rw [if_pos ht] at h
      exact absurd h ht
  · rw [if_pos hp] at h
    exact absurd h hp

theorem linkCmp_trans {a b c : Link} (h1 : linkCmp a b < 0) (h2 : linkCmp b c < 0) :
    linkCmp a c < 0 := by
  unfold linkCmp at *
  by_cases hp1 : strCmp a.path b.path = 0
  · have hpe1 : a.path = b.path := (strCmp_eq_zero_iff _ _).1 hp1
    rw [if_neg (fun hc => hc hp1)] at h1
    by_cases hp2 : strCmp b.path c.path = 0
    · have hpe2 : b.path = c.path := (strCmp_eq_zero_iff _ _).1 hp2
      rw [if_neg (fun hc => hc hp2)] at h2
      have hp3 : strCmp a.path c.path = 0 := by
        rw [hpe1, hpe2, strCmp_self]
      rw [if_neg (fun hc => hc hp3)]
      by_cases ht1 : strCmp a.type.toTag b.type.toTag = 0
      · have hte1 : a.type.toTag = b.type.toTag := (strCmp_eq_zero_iff _ _).1 ht1
        rw [if_neg (fun hc => hc ht1)] at h1
        by_cases ht2 : strCmp b.type.toTag c.type.toTag = 0
        · have hte2 : b.type.toTag = c.type.toTag := (strCmp_eq_zero_iff _ _).1 ht2
          rw [if_neg (fun hc => hc ht2)] at h2
          have ht3 : strCmp a.type.toTag c.type.toTag = 0 := by
            rw [hte1, hte2, strCmp_self]
          rw [if_neg (fun hc => hc ht3)]
          exact subCmp_trans h1 h2
        · rw [if_pos ht2] at h2
          have ht3 : strCmp a.type.toTag c.type.toTag < 0 := by
            rw [hte1]; exact h2
          rw [if_pos (by omega)]
          exact ht3
      · rw [if_pos ht1] at h1
        by_cases ht2 : strCmp b.type.toTag c.type.toTag = 0
        · have hte2 : b.type.toTag = c.type.toTag := (strCmp_eq_zero_iff _ _).1 ht2
          have ht3 : strCmp a.type.toTag c.type.toTag < 0 := by
            rw [← hte2]; exact h1
          rw [if_pos (by omega)]
          exact ht3
        · rw [if_pos ht2] at h2
          have ht3 : strCmp a.type.toTag c.type.toTag < 0 := strCmp_trans h1 h2
          rw [if_pos (by omega)]
          exact ht3
    · rw [if_pos hp2] at h2
      have hp3 : strCmp a.path c.path < 0 := by rw [hpe1]; exact h2
      rw [if_pos (by omega)]
      exact hp3
  · rw [if_pos hp1] at h1
    by_cases hp2 : strCmp b.path c.path = 0
    · have hpe2 : b.path = c.path := (strCmp_eq_zero_iff _ _).1 hp2
      have hp3 : strCmp a.path c.path < 0 := by rw [← hpe2]; exact h1
      rw [if_pos (by omega)]
      exact hp3
    · rw [if_pos hp2] at h2
      have hp3 : strCmp a.path c.path < 0 := strCmp_trans h1 h2
      rw [if_pos (by omega)]
      exact hp3

theorem compareStringLists_self (ks : List String) : compareStringLists ks ks = 0 := by
  induction ks with
  | nil => rfl
  | cons k ks ih => simp [compareStringLists, strCmp_self, ih]

theorem compareStringLists_zero_eq :
    ∀ {xs ys : List String}, compareStringLists xs ys = 0 → xs = ys := by
  intro xs
  induction xs with
  | nil =>
    intro ys h
    cases ys with
    | nil => rfl
    | cons y ys => simp [compareStringLists] at h; omega
  | cons x xs ih =>
    intro ys h
    cases ys with
    | nil => simp [compareStringLists] at h; omega
    | cons y ys =>
      rw [compareStringLists] at h
      by_cases hc : strCmp x y = 0
      · rw [if_neg (fun hcon => hcon hc)] at h
        rw [(strCmp_eq_zero_iff _ _).1 hc, ih h]
      · rw [if_pos hc] at h
        exact absurd h hc

theorem compareStringLists_flip :
    ∀ (xs ys : List String), compareStringLists ys xs = -(compareStringLists xs ys) := by
  intro xs
  induction xs with
  | nil =>
    intro ys
    cases ys <;> simp [compareStringLists]
  | cons x xs ih =>
    intro ys
    cases ys with
    | nil => simp [compareStringLists]
    | cons y ys =>
      rw [compareStringLists, compareStringLists]
      have hf := strCmp_flip x y
      by_cases hc : strCmp x y = 0
      · rw [if_neg (by omega), if_neg (by omega), ih]
      · rw [if_pos (by omega), if_pos (by omega)]
        omega

theorem compareStringLists_trans :
    ∀ (xs ys zs : List String), compareStringLists xs ys < 0 →
      compareStringLists ys zs < 0 → compareStringLists xs zs < 0 := by
  intro xs
  induction xs with
  | nil =>
    intro ys zs h1 h2
    cases ys with
    | nil => simp [compareStringLists] at h1
    | cons y ys =>
      cases zs with
      | nil => simp [compareStringLists] at h2; omega
      | cons z zs => simp [compareStringLists]; omega
  | cons x xs ih =>
    intro ys zs h1 h2
    cases ys with
    | nil => simp [compareStringLists] at h1; omega
    | cons y ys =>
      cases zs with
      | nil => simp [compareStringLists] at h2; omega
      | cons z zs =>
        rw [compareStringLists] at h1 h2 ⊢
        by_cases hxy : strCmp x y = 0
        · rw [if_neg (fun hc => hc hxy)] at h1
          have hexy : x = y := (strCmp_eq_zero_iff _ _).1 hxy
          by_cases hyz : strCmp y z = 0
          · rw [if_neg (fun hc => hc hyz)] at h2
            have heyz : y = z := (strCmp_eq_zero_iff _ _).1 hyz
            have hxz : strCmp x z = 0 := by
              rw [hexy, heyz, strCmp_self]
            rw [if_neg (fun hc => hc hxz)]
            exact ih ys zs h1 h2
          · rw [if_pos hyz] at h2
            have hxz : strCmp x z < 0 := by rw [hexy]; exact h2
            rw [if_pos (by omega)]
            exact hxz
        · rw [if_pos hxy] at h1
          by_cases hyz : strCmp y z = 0
          · have heyz : y = z := (strCmp_eq_zero_iff _ _).1 hyz
            have hxz : strCmp x z < 0 := by rw [← heyz]; exact h1
            rw [if_pos (by omega)]
            exact hxz
          · rw [if_pos hyz] at h2
            have hxz : strCmp x z < 0 := strCmp_trans h1 h2
            rw [if_pos (by omega)]
            exact hxz

theorem compareList_nil_nil : compareList [] [] = 0 := by rw [compareList]; rfl

theorem compareList_nil (ys : List Literal) : compareList [] ys = -(ys.length : Int) := by
  rw [compareList]

theorem compareList_cons_nil (x : Literal) (xs : List Literal) :
    compareList (x :: xs) [] = ((x :: xs).length : Int) := by
  rw [compareList]

theorem compareList_cons_cons (x y : Literal) (xs ys : List Literal) :
    compareList (x :: xs) (y :: ys) =
      (if compareValue x y ≠ 0 then compareValue x y else compareList xs ys) := by
  rw [compareList]

theorem compareFieldsByKeys_nil (o1 o2 : List (String × Literal)) :
    compareFieldsByKeys o1 o2 [] = 0 := by
  rw [compareFieldsByKeys]

theorem compareFieldsByKeys_cons (o1 o2 : List (String × Literal)) (k : String)
    (ks : List String) :
    compareFieldsByKeys o1 o2 (k :: ks) =
      (if compareValue (lookupField o1 k) (lookupField o2 k) ≠ 0 then
        compareValue (lookupField o1 k) (lookupField o2 k)
      else compareFieldsByKeys o1 o2 ks) := by
  rw [compareFieldsByKeys]

theorem objCmp_eq (o1 o2 : List (String × Literal)) :
    objCmp o1 o2 =
      (if compareStringLists (sortedKeys o1) (sortedKeys o2) ≠ 0 then
        compareStringLists (sortedKeys o1) (sortedKeys o2)
      else compareFieldsByKeys o1 o2 (sortedKeys o1)) := by
  rw [objCmp]

theorem compareList_length_eq_of_zero :
    ∀ {xs ys : List Literal}, compareList xs ys = 0 → xs.length = ys.length := by
  intro xs
  induction xs with
  | nil =>
    intro ys h
    cases ys with
    | nil => rfl
    | cons y ys => rw [compareList_nil] at h; simp at h; omega
  | cons x xs ih =>
    intro ys h
    cases ys with
    | nil => rw [compareList_cons_nil] at h; simp at h; omega
    | cons y ys =>
      rw [compareList_cons_cons] at h
      by_cases hc : compareValue x y = 0
      · rw [if_neg (fun hcon => hcon hc)] at h
        simp [ih h]
      · rw [if_pos hc] at h
        exact absurd h hc

theorem compareList_flip_of :
    ∀ (xs ys : List Literal),
      (∀ x ∈ xs, ∀ y ∈ ys, compareValue y x = -(compareValue x y)) →
      compareList ys xs = -(compareList xs ys) := by
  intro xs
  induction xs with
  | nil =>
    intro ys _
    cases ys with
    | nil => simp [compareList_nil_nil]
    | cons y ys => rw [compareList_nil, compareList_cons_nil]; omega
  | cons x xs ih =>
    intro ys hpt
    cases ys with
    | nil => rw [compareList_nil, compareList_cons_nil]
    | cons y ys =>
      rw [compareList_cons_cons, compareList_cons_cons]
      have hf := hpt x (List.mem_cons_self x xs) y (List.mem_cons_self y ys)
      by_cases hc : compareValue x y = 0
      · rw [if_neg (by omega), if_neg (by omega)]
        exact ih ys (fun a ha b hb => hpt a (List.mem_cons_of_mem x ha) b
          (List.mem_cons_of_mem y hb))
      · rw [if_pos (by omega), if_pos (by omega)]
        omega

theorem compareList_zsubst_left_of :
    ∀ (xs ys zs : List Literal),
      compareList xs ys = 0 →
      (∀ x ∈ xs, ∀ y ∈ ys, ∀ z ∈ zs,
        compareValue x y = 0 → compareValue x z = compareValue y z) →
      compareList xs zs = compareList ys zs := by
  intro xs
  induction xs with
  | nil =>
    intro ys zs hz _
    cases ys with
    | nil => rfl
    | cons y ys => rw [compareList_nil] at hz; simp at hz; omega
  | cons x xs ih =>
    intro ys zs hz hpt
    cases ys with
    | nil => rw [compareList_cons_nil] at hz; simp at hz; omega
    | cons y ys =>
      rw [compareList_cons_cons] at hz
      by_cases hc : compareValue x y = 0
      · rw [if_neg (fun hcon => hcon hc)] at hz
        cases zs with
        | nil =>
          rw [compareList_cons_nil, compareList_cons_nil]
          have := compareList_length_eq_of_zero hz
          simp [this]
        | cons z zs =>
          rw [compareList_cons_cons, compareList_cons_cons]
          have hsub : compareValue x z = compareValue y z :=
            hpt x (List.mem_cons_self x xs) y (List.mem_cons_self y ys) z
              (List.mem_cons_self z zs) hc
          rw [hsub]
          by_cases hcz : compareValue y z = 0
          · rw [if_neg (fun hcon => hcon hcz), if_neg (fun hcon => hcon hcz)]
            exact ih ys zs hz (fun a ha b hb c hcm =>
              hpt a (List.mem_cons_of_mem x ha) b (List.mem_cons_of_mem y hb) c
                (List.mem_cons_of_mem z hcm))
          · rw [if_pos hcz, if_pos hcz]
      · rw [if_pos hc] at hz
        exact absurd hz hc

theorem compareList_zsubst_right_of :
    ∀ (xs ys zs : List Literal),
      compareList ys zs = 0 →
      (∀ x ∈ xs, ∀ y ∈ ys, ∀ z ∈ zs,
        compareValue y z = 0 → compareValue x y = compareValue x z) →
      compareList xs ys = compareList xs zs := by
  intro xs
  induction xs with
  | nil =>
    intro ys zs hz _
    rw [compareList_nil, compareList_nil]
    have := compareList_length_eq_of_zero hz
    simp [this]
  | cons x xs ih =>
    intro ys zs hz hpt
    cases ys with
    | nil =>
      cases zs with
      | nil => rfl
      | cons z zs => rw [compareList_nil] at hz; simp at hz; omega
    | cons y ys =>
      cases zs with
      | nil => rw [compareList_cons_nil] at hz; simp at hz; omega
      | cons z zs =>
        rw [compareList_cons_cons] at hz
        by_cases hc : compareValue y z = 0
        · rw [if_neg (fun hcon => hcon hc)] at hz
          rw [compareList_cons_cons, compareList_cons_cons]
          have hsub : compareValue x y = compareValue x z :=
            hpt x (List.mem_cons_self x xs) y (List.mem_cons_self y ys) z
              (List.mem_cons_self z zs) hc
          rw [hsub]
          by_cases hcz : compareValue x z = 0
          · rw [if_neg (fun hcon => hcon hcz), if_neg (fun hcon => hcon hcz)]
            exact ih ys zs hz (fun a ha b hb c hcm =>
              hpt a (List.mem_cons_of_mem x ha) b (List.mem_cons_of_mem y hb) c
                (List.mem_cons_of_mem z hcm))
          · rw [if_pos hcz, if_pos hcz]
        · rw [if_pos hc] at hz
          exact absurd hz hc

theorem compareFieldsByKeys_flip_of (o1 o2 : List (String × Literal)) :
    ∀ ks : List String,
      (∀ k ∈ ks, compareValue (lookupField o2 k) (lookupField o1 k) =
        -(compareValue (lookupField o1 k) (lookupField o2 k))) →
      compareFieldsByKeys o2 o1 ks = -(compareFieldsByKeys o1 o2 ks) := by
  intro ks
  induction ks with
  | nil => intro _; rw [compareFieldsByKeys_nil, compareFieldsByKeys_nil]; rfl
  | cons k ks ih =>
    intro hpt
    rw [compareFieldsByKeys_cons, compareFieldsByKeys_cons]
    have hf := hpt k (List.mem_cons_self k ks)
    by_cases hc : compareValue (lookupField o1 k) (lookupField o2 k) = 0
    · rw [if_neg (by omega), if_neg (by omega)]
      exact ih (fun a ha => hpt a (List.mem_cons_of_mem k ha))
    · rw [if_pos (by omega), if_pos (by omega)]
      omega

theorem compareFieldsByKeys_zsubst_left_of
    (o1 o2 o3 : List (String × Literal)) :
    ∀ ks : List String,
      compareFieldsByKeys o1 o2 ks = 0 →
      (∀ k ∈ ks, compareValue (lookupField o1 k) (lookupField o2 k) = 0 →
        compareValue (lookupField o1 k) (lookupField o3 k) =
          compareValue (lookupField o2 k) (lookupField o3 k)) →
      compareFieldsByKeys o1 o3 ks = compareFieldsByKeys o2 o3 ks := by
  intro ks
  induction ks with
  | nil => intro _ _; rw [compareFieldsByKeys_nil, compareFieldsByKeys_nil]
  | cons k ks ih =>
    intro hz hpt
    rw [compareFieldsByKeys_cons] at hz
    by_cases hc : compareValue (lookupField o1 k) (lookupField o2 k) = 0
    · rw [if_neg (fun hcon => hcon hc)] at hz
      rw [compareFieldsByKeys_cons, compareFieldsByKeys_cons]
      have hsub := hpt k (List.mem_cons_self k ks) hc
      rw [hsub]
      by_cases hcz : compareValue (lookupField o2 k) (lookupField o3 k) = 0
      · rw [if_neg (fun hcon => hcon hcz), if_neg (fun hcon => hcon hcz)]
        exact ih hz (fun a ha => hpt a (List.mem_cons_of_mem k ha))
      · rw [if_pos hcz, if_pos hcz]
    · rw [if_pos hc] at hz
      exact absurd hz hc

theorem compareFieldsByKeys_zsubst_right_of
    (o1 o2 o3 : List (String × Literal)) :
    ∀ ks : List String,
      compareFieldsByKeys o2 o3 ks = 0 →
      (∀ k ∈ ks, compareValue (lookupField o2 k) (lookupField o3 k) = 0 →
        compareValue (lookupField o1 k) (lookupField o2 k) =
          compareValue (lookupField o1 k) (lookupField o3 k)) →
      compareFieldsByKeys o1 o2 ks = compareFieldsByKeys o1 o3 ks := by
  intro ks
  induction ks with
  | nil => intro _ _; rw [compareFieldsByKeys_nil, compareFieldsByKeys_nil]
  | cons k ks ih =>
    intro hz hpt
    rw [compareFieldsByKeys_cons] at hz
    by_cases hc : compareValue (lookupField o2 k) (lookupField o3 k) = 0
    · rw [if_neg (fun hcon => hcon hc)] at hz
      rw [compareFieldsByKeys_cons, compareFieldsByKeys_cons]
      have hsub := hpt k (List.mem_cons_self k ks) hc
      rw [hsub]
      by_cases hcz : compareValue (lookupField o1 k) (lookupField o3 k) = 0
      · rw [if_neg (fun hcon => hcon hcz), if_neg (fun hcon => hcon hcz)]
        exact ih hz (fun a ha => hpt a (List.mem_cons_of_mem k ha))
      · rw [if_pos hcz, if_pos hcz]
    · rw [if_pos hc] at hz
      exact absurd hz hc

theorem compareFieldsByKeys_trans_of
    (o1 o2 o3 : List (String × Literal)) :
    ∀ ks : List String,
      compareFieldsByKeys o1 o2 ks < 0 →
      compareFieldsByKeys o2 o3 ks < 0 →
      (∀ k ∈ ks, compareValue (lookupField o1 k) (lookupField o2 k) < 0 →
        compareValue (lookupField o2 k) (lookupField o3 k) < 0 →
        compareValue (lookupField o1 k) (lookupField o3 k) < 0) →
      (∀ k ∈ ks, compareValue (lookupField o1 k) (lookupField o2 k) = 0 →
        compareValue (lookupField o1 k) (lookupField o3 k) =
          compareValue (lookupField o2 k) (lookupField o3 k)) →
      (∀ k ∈ ks, compareValue (lookupField o2 k) (lookupField o3 k) = 0 →
        compareValue (lookupField o1 k) (lookupField o2 k) =
          compareValue (lookupField o1 k) (lookupField o3 k)) →
      compareFieldsByKeys o1 o3 ks < 0 := by
  intro ks
  induction ks with
  | nil => intro h1 _ _ _ _; rw [compareFieldsByKeys_nil] at h1; omega
  | cons k ks ih =>
    intro h1 h2 hptt hptl hptr
    rw [compareFieldsByKeys_cons] at h1 h2 ⊢
    have hmem := List.mem_cons_self k ks
    by_cases hc12 : compareValue (lookupField o1 k) (lookupField o2 k) = 0
    · rw [if_neg (fun hcon => hcon hc12)] at h1
      have hsub := hptl k hmem hc12
      by_cases hc23 : compareValue (lookupField o2 k) (lookupField o3 k) = 0
      · rw [if_neg (fun hcon => hcon hc23)] at h2
        have hc13 : compareValue (lookupField o1 k) (lookupField o3 k) = 0 := by
          rw [hsub]; exact hc23
        rw [if_neg (fun hcon => hcon hc13)]
        exact ih h1 h2 (fun a ha => hptt a (List.mem_cons_of_mem k ha))
          (fun a ha => hptl a (List.mem_cons_of_mem k ha))
          (fun a ha => hptr a (List.mem_cons_of_mem k ha))
      · rw [if_pos hc23] at h2
        have hc13 : compareValue (lookupField o1 k) (lookupField o3 k) < 0 := by
          rw [hsub]; exact h2
        rw [if_pos (by omega)]
        exact hc13
    · rw [if_pos hc12] at h1
      by_cases hc23 : compareValue (lookupField o2 k) (lookupField o3 k) = 0
      · have hsub := hptr k hmem hc23
        have hc13 : compareValue (lookupField o1 k) (lookupField o3 k) < 0 := by
          rw [← hsub]; exact h1
        rw [if_pos (by omega)]
        exact hc13
      · rw [if_pos hc23] at h2
        have hc13 := hptt k hmem h1 h2
        rw [if_pos (by omega)]
        exact hc13

theorem objCmp_flip_of (o1 o2 : List (String × Literal))
    (hpt : ∀ k ∈ sortedKeys o1, compareValue (lookupField o2 k) (lookupField o1 k) =
      -(compareValue (lookupField o1 k) (lookupField o2 k))) :
    objCmp o2 o1 = -(objCmp o1 o2) := by
  rw [objCmp_eq, objCmp_eq]
  have hf := compareStringLists_flip (sortedKeys o1) (sortedKeys o2)
  by_cases hk : compareStringLists (sortedKeys o1) (sortedKeys o2) = 0
  · have hke : sortedKeys o1 = sortedKeys o2 := compareStringLists_zero_eq hk
    rw [if_neg (by omega), if_neg (by omega), ← hke]
    exact compareFieldsByKeys_flip_of o1 o2 (sortedKeys o1) hpt
  · rw [if_pos (by omega), if_pos (by omega)]
    omega

theorem objCmp_zsubst_left_of (o1 o2 o3 : List (String × Literal))
    (hz : objCmp o1 o2 = 0)
    (hpt : ∀ k ∈ sortedKeys o1,
      compareValue (lookupField o1 k) (lookupField o2 k) = 0 →
      compareValue (lookupField o1 k) (lookupField o3 k) =
        compareValue (lookupField o2 k) (lookupField o3 k)) :
    objCmp o1 o3 = objCmp o2 o3 := by
  rw [objCmp_eq] at hz
  by_cases hk : compareStringLists (sortedKeys o1) (sortedKeys o2) = 0
  · rw [if_neg (fun hcon => hcon hk)] at hz
    have hke : sortedKeys o1 = sortedKeys o2 := compareStringLists_zero_eq hk
    rw [objCmp_eq, objCmp_eq, ← hke]
    by_cases hk3 : compareStringLists (sortedKeys o1) (sortedKeys o3) = 0
    · rw [if_neg (fun hcon => hcon hk3), if_neg (fun hcon => hcon hk3)]
      exact compareFieldsByKeys_zsubst_left_of o1 o2 o3 (sortedKeys o1) hz hpt
    · rw [if_pos hk3, if_pos hk3]
  · rw [if_pos hk] at hz
    exact absurd hz hk

theorem objCmp_zsubst_right_of (o1 o2 o3 : List (String × Literal))
    (hz : objCmp o2 o3 = 0)
    (hpt : ∀ k ∈ sortedKeys o1,
      compareValue (lookupField o2 k) (lookupField o3 k) = 0 →
      compareValue (lookupField o1 k) (lookupField o2 k) =
        compareValue (lookupField o1 k) (lookupField o3 k)) :
    objCmp o1 o2 = objCmp o1 o3 := by
  rw [objCmp_eq] at hz
  by_cases hk : compareStringLists (sortedKeys o2) (sortedKeys o3) = 0
  · rw [if_neg (fun hcon => hcon hk)] at hz
    have hke : sortedKeys o2 = sortedKeys o3 := compareStringLists_zero_eq hk
    rw [objCmp_eq, objCmp_eq, ← hke]
    by_cases hk2 : compareStringLists (sortedKeys o1) (sortedKeys o2) = 0
    · rw [if_neg (fun hcon => hcon hk2), if_neg (fun hcon => hcon hk2)]
      refine compareFieldsByKeys_zsubst_right_of o1 o2 o3 (sortedKeys o1) ?_ hpt
      have hke1 : sortedKeys o1 = sortedKeys o2 := compareStringLists_zero_eq hk2
      rw [hke1]
      exact hz
    · rw [if_pos hk2, if_pos hk2]
  · rw [if_pos hk] at hz
    exact absurd hz hk

theorem objCmp_trans_of (o1 o2 o3 : List (String × Literal))
    (h1 : objCmp o1 o2 < 0) (h2 : objCmp o2 o3 < 0)
    (hptt : ∀ k ∈ sortedKeys o1,
      compareValue (lookupField o1 k) (lookupField o2 k) < 0 →
      compareValue (lookupField o2 k) (lookupField o3 k) < 0 →
      compareValue (lookupField o1 k) (lookupField o3 k) < 0)
    (hptl : ∀ k ∈ sortedKeys o1,
      compareValue (lookupField o1 k) (lookupField o2 k) = 0 →
      compareValue (lookupField o1 k) (lookupField o3 k) =
        compareValue (lookupField o2 k) (lookupField o3 k))
    (hptr : ∀ k ∈ sortedKeys o1,
      compareValue (lookupField o2 k) (lookupField o3 k) = 0 →
      compareValue (lookupField o1 k) (lookupField o2 k) =
        compareValue (lookupField o1 k) (lookupField o3 k)) :
    objCmp o1 o3 < 0 := by
  rw [objCmp_eq] at h1 h2 ⊢
  by_cases hk12 : compareStringLists (sortedKeys o1) (sortedKeys o2) = 0
  · rw [if_neg (fun hcon => hcon hk12)] at h1
    have hke12 : sortedKeys o1 = sortedKeys o2 := compareStringLists_zero_eq hk12
    by_cases hk23 : compareStringLists (sortedKeys o2) (sortedKeys o3) = 0
    · rw [if_neg (fun hcon => hcon hk23)] at h2
      have hke23 : sortedKeys o2 = sortedKeys o3 := compareStringLists_zero_eq hk23
      have hk13 : compareStringLists (sortedKeys o1) (sortedKeys o3) = 0 := by
        rw [hke12, hke23, compareStringLists_self]
      rw [if_neg (fun hcon => hcon hk13)]
      rw [← hke12] at h2
      exact compareFieldsByKeys_trans_of o1 o2 o3 (sortedKeys o1) h1 h2 hptt hptl hptr
    · rw [if_pos hk23] at h2
      have hk13 : compareStringLists (sortedKeys o1) (sortedKeys o3) < 0 := by
        rw [hke12]; exact h2
      rw [if_pos (by omega)]
      exact hk13
  · rw [if_pos hk12] at h1
    by_cases hk23 : compareStringLists (sortedKeys o2) (sortedKeys o3) = 0
    · have hke23 : sortedKeys o2 = sortedKeys o3 := compareStringLists_zero_eq hk23
      have hk13 : compareStringLists (sortedKeys o1) (sortedKeys o3) < 0 := by
        rw [← hke23]; exact h1
      rw [if_pos (by omega)]
      exact hk13
    · rw [if_pos hk23] at h2
      have hk13 := compareStringLists_trans _ _ _ h1 h2
      rw [if_pos (by omega)]
      exact hk13

theorem nanFree_arr (xs : List Literal) : nanFree (.arr xs) = nanFreeList xs := by
  rw [nanFree]

theorem nanFree_obj (o : List (String × Literal)) :
    nanFree (.obj o) = nanFreeFields o := by
  rw [nanFree]

theorem nanFreeList_mem {xs : List Literal} (h : nanFreeList xs = true) :
    ∀ x ∈ xs, nanFree x = true := by
  induction xs with
  | nil => intro x hx; cases hx
  | cons y ys ih =>
    rw [nanFreeList, Bool.and_eq_true] at h
    intro x hx
    rcases List.mem_cons.1 hx with rfl | hx2
    · exact h.1
    · exact ih h.2 x hx2

theorem nanFreeFields_lookup {o : List (String × Literal)}
    (h : nanFreeFields o = true) (k : String) :
    nanFree (lookupField o k) = true := by
  induction o with
  | nil => rw [lookupField]; simp [nanFree]
  | cons p rest ih =>
    obtain ⟨k2, v⟩ := p
    rw [nanFreeFields, Bool.and_eq_true] at h
    rw [lookupField]
    split
    · exact h.1
    · exact ih h.2

theorem goodList_mem {xs : List Literal} (h : goodList xs = true) :
    ∀ x ∈ xs, goodLit x = true := by
  induction xs with
  | nil => intro x hx; cases hx
  | cons y ys ih =>
    rw [goodList, Bool.and_eq_true] at h
    intro x hx
    rcases List.mem_cons.1 hx with rfl | hx2
    · exact h.1
    · exact ih h.2 x hx2

theorem goodFields_lookup {o : List (String × Literal)}
    (h : goodFields o = true) (k : String) :
    goodLit (lookupField o k) = true := by
  induction o with
  | nil => rw [lookupField]; simp [goodLit]
  | cons p rest ih =>
    obtain ⟨k2, v⟩ := p
    rw [goodFields, Bool.and_eq_true] at h
    rw [lookupField]
    split
    · exact h.1
    · exact ih h.2

theorem compareList_refl_of (xs : List Literal)
    (hpt : ∀ x ∈ xs, compareValue x x = 0) : compareList xs xs = 0 := by
  induction xs with
  | nil => exact compareList_nil_nil
  | cons x xs ih =>
    rw [compareList_cons_cons]
    rw [if_neg (fun hc => hc (hpt x (List.mem_cons_self x xs)))]
    exact ih (fun a ha => hpt a (List.mem_cons_of_mem x ha))

theorem compareFieldsByKeys_refl_of (o : List (String × Literal)) :
    ∀ ks : List String,
      (∀ k ∈ ks, compareValue (lookupField o k) (lookupField o k) = 0) →
      compareFieldsByKeys o o ks = 0 := by
  intro ks
  induction ks with
  | nil => intro _; exact compareFieldsByKeys_nil o o
  | cons k ks ih =>
    intro hpt
    rw [compareFieldsByKeys_cons]
    rw [if_neg (fun hc => hc (hpt k (List.mem_cons_self k ks)))]
    exact ih (fun a ha => hpt a (List.mem_cons_of_mem k ha))

theorem objCmp_refl_of (o : List (String × Literal))
    (hpt : ∀ k ∈ sortedKeys o, compareValue (lookupField o k) (lookupField o k) = 0) :
    objCmp o o = 0 := by
  rw [objCmp_eq]
  rw [if_neg (fun hc => hc (compareStringLists_self _))]
  exact compareFieldsByKeys_refl_of o (sortedKeys o) hpt

theorem compareValue_refl :
    ∀ (n : ℕ) (a : Literal), sizeOf a ≤ n → nanFree a = true →
      compareValue a a = 0 := by
  intro n
  induction n using Nat.strong_induction_on with
  | _ n ih =>
    intro a hsz hnf
    cases a with
    | null => simp only [compareValue.eq_def, coerceUndef, compareCore.eq_def]
    | undef => simp only [compareValue.eq_def, coerceUndef, compareCore.eq_def]
    | bool b =>
      simp only [compareValue.eq_def, coerceUndef, compareCore.eq_def]
      exact boolCmp_self b
    | num m =>
      cases m with
      | nan => rw [nanFree] at hnf; exact absurd hnf (by simp)
      | negInf =>
        simp only [compareValue.eq_def, coerceUndef, compareCore.eq_def]
        exact numCmp_self (by simp)
      | posInf =>
        simp only [compareValue.eq_def, coerceUndef, compareCore.eq_def]
        exact numCmp_self (by simp)
      | val q =>
        simp only [compareValue.eq_def, coerceUndef, compareCore.eq_def]
        exact numCmp_self (by simp)
    | str s =>
      simp only [compareValue.eq_def, coerceUndef, compareCore.eq_def]
      exact strCmp_self s
    | date d =>
      simp only [compareValue.eq_def, coerceUndef, compareCore.eq_def]
      exact dateCmp_self d
    | dur d =>
      simp only [compareValue.eq_def, coerceUndef, compareCore.eq_def]
      exact durCmp_self d
    | link l =>
      simp only [compareValue.eq_def, coerceUndef, compareCore.eq_def]
      exact linkCmp_self l
    | html i => simp only [compareValue.eq_def, coerceUndef, compareCore.eq_def]
    | func i => simp only [compareValue.eq_def, coerceUndef, compareCore.eq_def]
    | arr xs =>
      rw [nanFree_arr] at hnf
      simp only [compareValue.eq_def, coerceUndef, compareCore.eq_def]
      refine compareList_refl_of xs ?_
      intro x hx
      have hlt : sizeOf x < sizeOf (Literal.arr xs) := by
        have := List.sizeOf_lt_of_mem hx
        simp only [Literal.arr.sizeOf_spec]
        omega
      exact ih (sizeOf x) (by omega) x (Nat.le_refl _) (nanFreeList_mem hnf x hx)
    | obj o =>
      rw [nanFree_obj] at hnf
      simp only [compareValue.eq_def, coerceUndef, compareCore.eq_def]
      refine objCmp_refl_of o ?_
      intro k _
      have hle := sizeOf_lookupField_le o k
      have hlt : sizeOf (lookupField o k) < sizeOf (Literal.obj o) := by
        simp only [Literal.obj.sizeOf_spec]
        omega
      exact ih (sizeOf (lookupField o k)) (by omega) _ (Nat.le_refl _)
        (nanFreeFields_lookup hnf k)

theorem goodLit_num {m : JSNum} (h : goodLit (.num m) = true) : m ≠ .nan := by
  intro hcon
  subst hcon
  rw [goodLit] at h
  simp at h

theorem goodLit_date {d : JSDate} (h : goodLit (.date d) = true) :
    d.zone = "UTC" := by
  rw [goodLit] at h
  exact eq_of_beq h

theorem goodLit_dur {d : JSDur} (h : goodLit (.dur d) = true) :
    d.units = "milliseconds" := by
  rw [goodLit] at h
  exact eq_of_beq h

theorem compareValue_flip :
    ∀ (n : ℕ) (a b : Literal), sizeOf a + sizeOf b ≤ n →
      goodLit a = true → goodLit b = true →
      compareValue b a = -(compareValue a b) := by
  intro n
  induction n using Nat.strong_induction_on with
  | _ n ih =>
    intro a b hsz hga hgb
    cases a <;> cases b <;>
      simp only [compareValue.eq_def, coerceUndef, compareCore.eq_def, tagOf] <;>
      first
      | omega
      | apply strCmp_flip
      | apply boolCmp_flip
      | exact numCmp_flip (goodLit_num hga) (goodLit_num hgb)
      | exact dateCmp_flip (goodLit_date hga) (goodLit_date hgb)
      | exact durCmp_flip (goodLit_dur hga) (goodLit_dur hgb)
      | apply linkCmp_flip
      | (rename_i xs ys
         rw [goodLit] at hga hgb
         refine compareList_flip_of xs ys ?_
         intro x hx y hy
         refine ih (sizeOf x + sizeOf y) ?_ x y (Nat.le_refl _)
           (goodList_mem hga x hx) (goodList_mem hgb y hy)
         have h1 := List.sizeOf_lt_of_mem hx
         have h2 := List.sizeOf_lt_of_mem hy
         simp only [Literal.arr.sizeOf_spec] at hsz
         omega)
      | (rename_i o1 o2
         rw [goodLit] at hga hgb
         refine objCmp_flip_of o1 o2 ?_
         intro k _
         refine ih (sizeOf (lookupField o1 k) + sizeOf (lookupField o2 k)) ?_ _ _
           (Nat.le_refl _) (goodFields_lookup hga k) (goodFields_lookup hgb k)
         have h1 := sizeOf_lookupField_le o1 k
         have h2 := sizeOf_lookupField_le o2 k
         simp only [Literal.obj.sizeOf_spec] at hsz
         omega)

theorem compareValue_zsubst_left :
    ∀ (n : ℕ) (a b c : Literal), sizeOf a + sizeOf b + sizeOf c ≤ n →
      compareValue a b = 0 → compareValue a c = compareValue b c := by
  intro n
  induction n using Nat.strong_induction_on with
  | _ n ih =>
    intro a b c hsz hz
    cases a <;> cases b <;>
      first
      | rfl
      | (simp only [compareValue.eq_def, coerceUndef] at hz ⊢ <;> rfl)
      | (simp only [compareValue.eq_def, coerceUndef, compareCore.eq_def,
          tagOf] at hz <;>
         first
         | (simp at hz <;> done)
         | (exact absurd ((strCmp_eq_zero_iff _ _).1 hz) (by simp)))
      | (simp only [compareValue.eq_def, coerceUndef, compareCore.eq_def] at hz
         first
         | (obtain rfl := (strCmp_eq_zero_iff _ _).1 hz; rfl)
         | (obtain rfl := numCmp_zero_eq hz; rfl)
         | (obtain rfl := boolCmp_zero_eq hz; rfl)
         | (obtain rfl := dateCmp_zero_eq hz; rfl)
         | (obtain rfl := durCmp_zero_eq hz; rfl))
      | (cases c <;>
          simp only [compareValue.eq_def, coerceUndef, compareCore.eq_def,
            tagOf] <;> rfl)
      | (simp only [compareValue.eq_def, coerceUndef, compareCore.eq_def] at hz
         cases c <;>
           simp only [compareValue.eq_def, coerceUndef, compareCore.eq_def,
             tagOf] <;>
           first
           | rfl
           | exact linkCmp_zero_subst hz _)
      | (rename_i xs ys
         simp only [compareValue.eq_def, coerceUndef, compareCore.eq_def] at hz
         cases c <;>
           simp only [compareValue.eq_def, coerceUndef, compareCore.eq_def,
             tagOf] <;>
           first
           | rfl
           | (rename_i zs
              refine compareList_zsubst_left_of xs ys zs hz ?_
              intro x hx y hy z hz2 hcm
              refine ih (sizeOf x + sizeOf y + sizeOf z) ?_ x y z
                (Nat.le_refl _) hcm
              have h1 := List.sizeOf_lt_of_mem hx
              have h2 := List.sizeOf_lt_of_mem hy
              have h3 := List.sizeOf_lt_of_mem hz2
              simp only [Literal.arr.sizeOf_spec] at hsz
              omega))
      | (rename_i o1 o2
         simp only [compareValue.eq_def, coerceUndef, compareCore.eq_def] at hz
         cases c <;>
           simp only [compareValue.eq_def, coerceUndef, compareCore.eq_def,
             tagOf] <;>
           first
           | rfl
           | (rename_i o3
              refine objCmp_zsubst_left_of o1 o2 o3 hz ?_
              intro k _ hcm
              refine ih (sizeOf (lookupField o1 k) + sizeOf (lookupField o2 k) +
                sizeOf (lookupField o3 k)) ?_ _ _ _ (Nat.le_refl _) hcm
              have h1 := sizeOf_lookupField_le o1 k
              have h2 := sizeOf_lookupField_le o2 k
              have h3 := sizeOf_lookupField_le o3 k
              simp only [Literal.obj.sizeOf_spec] at hsz
              omega))

theorem linkCmp_zero_subst_right {b c : Link} (h : linkCmp b c = 0) (a : Link) :
    linkCmp a b = linkCmp a c := by
  have hf1 := linkCmp_flip a b
  have hf2 := linkCmp_flip a c
  have hz2 : linkCmp c b = 0 := by
    have := linkCmp_flip b c
    omega
  have hsub := linkCmp_zero_subst h a
  omega

theorem compareValue_zsubst_right :
    ∀ (n : ℕ) (a b c : Literal), sizeOf a + sizeOf b + sizeOf c ≤ n →
      compareValue b c = 0 → compareValue a b = compareValue a c := by
  intro n
  induction n using Nat.strong_induction_on with
  | _ n ih =>
    intro a b c hsz hz
    cases b <;> cases c <;>
      first
      | rfl
      | (simp only [compareValue.eq_def, coerceUndef] at hz ⊢ <;> rfl)
      | (simp only [compareValue.eq_def, coerceUndef, compareCore.eq_def,
          tagOf] at hz <;>
         first
         | (simp at hz <;> done)
         | (exact absurd ((strCmp_eq_zero_iff _ _).1 hz) (by simp)))
      | (simp only [compareValue.eq_def, coerceUndef, compareCore.eq_def] at hz
         first
         | (obtain rfl := (strCmp_eq_zero_iff _ _).1 hz; rfl)
         | (obtain rfl := numCmp_zero_eq hz; rfl)
         | (obtain rfl := boolCmp_zero_eq hz; rfl)
         | (obtain rfl := dateCmp_zero_eq hz; rfl)
         | (obtain rfl := durCmp_zero_eq hz; rfl))
      | (cases a <;>
          simp only [compareValue.eq_def, coerceUndef, compareCore.eq_def,
            tagOf] <;> rfl)
      | (simp only [compareValue.eq_def, coerceUndef, compareCore.eq_def] at hz
         cases a <;>
           simp only [compareValue.eq_def, coerceUndef, compareCore.eq_def,
             tagOf] <;>
           first
           | rfl
           | exact linkCmp_zero_subst_right hz _)
      | (rename_i ys zs
         simp only [compareValue.eq_def, coerceUndef, compareCore.eq_def] at hz
         cases a <;>
           simp only [compareValue.eq_def, coerceUndef, compareCore.eq_def,
             tagOf] <;>
           first
           | rfl
           | (rename_i xs
              refine compareList_zsubst_right_of xs ys zs hz ?_
              intro x hx y hy z hz2 hcm
              refine ih (sizeOf x + sizeOf y + sizeOf z) ?_ x y z
                (Nat.le_refl _) hcm
              have h1 := List.sizeOf_lt_of_mem hx
              have h2 := List.sizeOf_lt_of_mem hy
              have h3 := List.sizeOf_lt_of_mem hz2
              simp only [Literal.arr.sizeOf_spec] at hsz
              omega))
      | (rename_i o2 o3
         simp only [compareValue.eq_def, coerceUndef, compareCore.eq_def] at hz
         cases a <;>
           simp only [compareValue.eq_def, coerceUndef, compareCore.eq_def,
             tagOf] <;>
           first
           | rfl
           | (rename_i o1
              refine objCmp_zsubst_right_of o1 o2 o3 hz ?_
              intro k _ hcm
              refine ih (sizeOf (lookupField o1 k) + sizeOf (lookupField o2 k) +
                sizeOf (lookupField o3 k)) ?_ _ _ _ (Nat.le_refl _) hcm
              have h1 := sizeOf_lookupField_le o1 k
              have h2 := sizeOf_lookupField_le o2 k
              have h3 := sizeOf_lookupField_le o3 k
              simp only [Literal.obj.sizeOf_spec] at hsz
              omega))

theorem compareValue_zsubst_left2 (a b c : Literal) (h : compareValue a b = 0) :
    compareValue a c = compareValue b c :=
  compareValue_zsubst_left (sizeOf a + sizeOf b + sizeOf c) a b c (Nat.le_refl _) h

theorem compareValue_zsubst_right2 (a b c : Literal) (h : compareValue b c = 0) :
    compareValue a b = compareValue a c :=
  compareValue_zsubst_right (sizeOf a + sizeOf b + sizeOf c) a b c (Nat.le_refl _) h

theorem numCmp_trans {a b c : JSNum} (h1 : numCmp a b < 0) (h2 : numCmp b c < 0) :
    numCmp a c < 0 := by
  rw [numCmp_neg_iff] at h1 h2 ⊢
  exact jsLt_trans h1 h2

theorem boolCmp_trans {a b c : Bool} (h1 : boolCmp a b < 0) (h2 : boolCmp b c < 0) :
    boolCmp a c < 0 := by
  rw [boolCmp_neg_iff] at h1 h2
  rw [h1.2] at h2
  exact absurd h2.1 (by simp)

theorem dateCmp_trans {a b c : JSDate} (h1 : dateCmp a b < 0) (h2 : dateCmp b c < 0) :
    dateCmp a c < 0 := by
  rw [dateCmp_neg_iff] at h1 h2 ⊢
  omega

theorem durCmp_trans {a b c : JSDur} (h1 : durCmp a b < 0) (h2 : durCmp b c < 0) :
    durCmp a c < 0 := by
  rw [durCmp_neg_iff] at h1 h2 ⊢
  omega

theorem compareList_trans_of :
    ∀ (xs ys zs : List Literal),
      (∀ x ∈ xs, ∀ y ∈ ys, ∀ z ∈ zs, compareValue x y < 0 →
        compareValue y z < 0 → compareValue x z < 0) →
      compareList xs ys < 0 → compareList ys zs < 0 → compareList xs zs < 0 := by
  intro xs
  induction xs with
  | nil =>
    intro ys zs _ h1 h2
    cases ys with
    | nil => rw [compareList_nil_nil] at h1; omega
    | cons y ys =>
      cases zs with
      | nil => rw [compareList_cons_nil] at h2; simp at h2; omega
      | cons z zs => rw [compareList_nil]; simp; omega
  | cons x xs ih =>
    intro ys zs hpt h1 h2
    cases ys with
    | nil => rw [compareList_cons_nil] at h1; simp at h1; omega
    | cons y ys =>
      cases zs with
      | nil => rw [compareList_cons_nil] at h2; simp at h2; omega
      | cons z zs =>
        rw [compareList_cons_cons] at h1 h2 ⊢
        have hmx := List.mem_cons_self x xs
        have hmy := List.mem_cons_self y ys
        have hmz := List.mem_cons_self z zs
        by_cases hxy : compareValue x y = 0
        · rw [if_neg (fun hc => hc hxy)] at h1
          by_cases hyz : compareValue y z = 0
          · rw [if_neg (fun hc => hc hyz)] at h2
            have hxz : compareValue x z = 0 := by
              rw [compareValue_zsubst_left2 x y z hxy]
              exact hyz
            rw [if_neg (fun hc => hc hxz)]
            exact ih ys zs
              (fun a ha b hb c hc => hpt a (List.mem_cons_of_mem x ha) b
                (List.mem_cons_of_mem y hb) c (List.mem_cons_of_mem z hc))
              h1 h2
          · rw [if_pos hyz] at h2
            have hxz : compareValue x z < 0 := by
              rw [compareValue_zsubst_left2 x y z hxy]
              exact h2
            rw [if_pos (by omega)]
            exact hxz
        · rw [if_pos hxy] at h1
          by_cases hyz : compareValue y z = 0
          · have hxz : compareValue x z < 0 := by
              rw [← compareValue_zsubst_right2 x y z hyz]
              exact h1
            rw [if_pos (by omega)]
            exact hxz
          · rw [if_pos hyz] at h2
            have hxz := hpt x hmx y hmy z hmz h1 h2
            rw [if_pos (by omega)]
            exact hxz

set_option maxHeartbeats 2000000 in
theorem compareValue_trans :
    ∀ (n : ℕ) (a b c : Literal), sizeOf a + sizeOf b + sizeOf c ≤ n →
      compareValue a b < 0 → compareValue b c < 0 → compareValue a c < 0 := by
  intro n
  induction n using Nat.strong_induction_on with
  | _ n ih =>
    intro a b c hsz h1 h2
    cases a <;> cases b <;>
      first
      | (simp only [compareValue.eq_def, coerceUndef, compareCore.eq_def,
          tagOf] at h1 <;>
         first
         | (simp at h1 <;> done)
         | (exfalso <;> revert h1 <;> simp [strCmp] <;> decide))
      | (simp only [compareValue.eq_def, coerceUndef, compareCore.eq_def,
          tagOf] at h1
         cases c <;>
           simp only [compareValue.eq_def, coerceUndef, compareCore.eq_def,
             tagOf] at h2 ⊢ <;>
           first
           | decide
           | exact h2
           | exact h1
           | (simp at h2 <;> done)
           | (simp [strCmp] <;> decide)
           | (exfalso <;> revert h2 <;> simp [strCmp] <;> decide)
           | exact strCmp_trans h1 h2
           | exact numCmp_trans h1 h2
           | exact boolCmp_trans h1 h2
           | exact dateCmp_trans h1 h2
           | exact durCmp_trans h1 h2
           | exact linkCmp_trans h1 h2
           | (rename_i xs ys zs
              refine compareList_trans_of xs ys zs ?_ h1 h2
              intro x hx y hy z hz2 hc1 hc2
              refine ih (sizeOf x + sizeOf y + sizeOf z) ?_ x y z
                (Nat.le_refl _) hc1 hc2
              have s1 := List.sizeOf_lt_of_mem hx
              have s2 := List.sizeOf_lt_of_mem hy
              have s3 := List.sizeOf_lt_of_mem hz2
              simp only [Literal.arr.sizeOf_spec] at hsz
              omega)
           | (rename_i o1 o2 o3
              refine objCmp_trans_of o1 o2 o3 h1 h2 ?_ ?_ ?_
              · intro k _ hc1 hc2
                refine ih (sizeOf (lookupField o1 k) +
                  sizeOf (lookupField o2 k) + sizeOf (lookupField o3 k)) ?_
                  _ _ _ (Nat.le_refl _) hc1 hc2
                have s1 := sizeOf_lookupField_le o1 k
                have s2 := sizeOf_lookupField_le o2 k
                have s3 := sizeOf_lookupField_le o3 k
                simp only [Literal.obj.sizeOf_spec] at hsz
                omega
              · intro k _ hcm
                exact compareValue_zsubst_left2 _ _ _ hcm
              · intro k _ hcm
                exact compareValue_zsubst_right2 _ _ _ hcm))

/-! ## Faithfulness of the object key-array comparison

The source compares the two sorted key arrays with a recursive call
`compareValue(k1, k2)` on arrays of strings; `compareStringLists` is that
call evaluated on string arrays. -/

theorem compareValue_str_arrays :
    ∀ (ks ls : List String),
      compareValue (.arr (ks.map Literal.str)) (.arr (ls.map Literal.str)) =
        compareStringLists ks ls := by
  intro ks
  induction ks with
  | nil =>
    intro ls
    cases ls with
    | nil =>
      simp only [List.map_nil, compareValue.eq_def, coerceUndef,
        compareCore.eq_def]
      rw [compareList_nil_nil]
      simp [compareStringLists]
    | cons l ls =>
      simp only [List.map_nil, List.map_cons, compareValue.eq_def, coerceUndef,
        compareCore.eq_def]
      rw [compareList_nil]
      simp [compareStringLists]
  | cons k ks ih =>
    intro ls
    cases ls with
    | nil =>
      simp only [List.map_cons, List.map_nil, compareValue.eq_def, coerceUndef,
        compareCore.eq_def]
      rw [compareList_cons_nil]
      simp [compareStringLists]
    | cons l ls =>
      simp only [List.map_cons, compareValue.eq_def, coerceUndef,
        compareCore.eq_def] at ih ⊢
      rw [compareList_cons_cons, compareStringLists]
      have hel : compareValue (.str k) (.str l) = strCmp k l := by
        simp only [compareValue.eq_def, coerceUndef]
        rw [compareCore]
      rw [hel, ih ls]

theorem mem_setAdd (s : List String) (x y : String) :
    y ∈ setAdd s x ↔ y ∈ s ∨ y = x := by
  unfold setAdd
  split_ifs with h
  · constructor
    · intro hy; exact Or.inl hy
    · rintro (hy | rfl) <;> [exact hy; exact h]
  · simp

theorem mem_listChildrenList_mono :
    ∀ (n : Nat) (items : List SListItem) (s : List String) (x : String),
      sizeOf items ≤ n → x ∈ s → x ∈ listChildrenList items s := by
  intro n
  induction n using Nat.strong_induction_on with
  | _ n ih =>
    intro items s x hsz hx
    match items with
    | [] => rw [listChildrenList]; exact hx
    | child :: rest =>
      rw [listChildrenList]
      have hrest : sizeOf rest < n := by
        have : sizeOf rest < sizeOf (child :: rest) := by simp
        omega
      apply ih (sizeOf rest) hrest rest _ x (Nat.le_refl _)
      rw [listChildren]
      have hch : sizeOf child.children < n := by
        have h1 : sizeOf child.children < sizeOf child := by
          cases child; simp [SListItem.children]
        have h2 : sizeOf child < sizeOf (child :: rest) := by simp; omega
        omega
      apply ih (sizeOf child.children) hch child.children _ x (Nat.le_refl _)
      rw [mem_setAdd]
      exact Or.inl hx

theorem strCmp_cases (a b : String) :
    strCmp a b = -1 ∨ strCmp a b = 0 ∨ strCmp a b = 1 := by
  unfold strCmp; split_ifs <;> simp

theorem numCmp_cases (a b : JSNum) :
    numCmp a b = -1 ∨ numCmp a b = 0 ∨ numCmp a b = 1 := by
  unfold numCmp; split_ifs <;> simp

theorem boolCmp_cases (a b : Bool) :
    boolCmp a b = -1 ∨ boolCmp a b = 0 ∨ boolCmp a b = 1 := by
  unfold boolCmp; split_ifs <;> simp

theorem dateCmp_cases (a b : JSDate) :
    dateCmp a b = -1 ∨ dateCmp a b = 0 ∨ dateCmp a b = 1 := by
  unfold dateCmp; split_ifs <;> simp

theorem durCmp_cases (a b : JSDur) :
    durCmp a b = -1 ∨ durCmp a b = 0 ∨ durCmp a b = 1 := by
  unfold durCmp; split_ifs <;> simp

theorem subCmp_cases (a b : Option String) :
    subCmp a b = -1 ∨ subCmp a b = 0 ∨ subCmp a b = 1 := by
  unfold subCmp; split_ifs <;> first | simp | exact strCmp_cases _ _

theorem linkCmp_cases (a b : Link) :
    linkCmp a b = -1 ∨ linkCmp a b = 0 ∨ linkCmp a b = 1 := by
  rw [linkCmp_eq]
  split_ifs <;> first | exact strCmp_cases _ _ | exact subCmp_cases _ _

/-! ## The claims -/

/-- C1, counterexample: `compareValue` is not reflexive-equal on every
value: at `NaN` the number case takes the `else` branch twice
(`NaN < NaN` and `NaN == NaN` are both false), so
`compareValue(NaN, NaN) = 1`, not `0` — the claimed strict-total-order
property fails for numbers such as `NaN`. -/
theorem C1_counterexample :
    compareValue (.num .nan) (.num .nan) = 1 := by
  simp [compareValue, compareCore, coerceUndef, numCmp, JSNum.jsLt, JSNum.jsEq]

/-- C1, amended: `compareValue` is reflexive-equal on every Literal
containing no `NaN`; it is antisymmetric (`compare(a,b) < 0` iff
`compare(b,a) > 0`) on the fragment that moreover keeps all dates in one
fixed zone and all durations in one canonical unit decomposition (so that
luxon `equals` agrees with magnitude equality, which same-instant
different-zone dates break); and it is transitive as a strict order on all
Literal values whatsoever. -/
theorem C1_amended_strict_total_order :
    ∀ a b c : Literal,
      (nanFree a = true → compareValue a a = 0) ∧
      (goodLit a = true → goodLit b = true →
        (compareValue a b < 0 ↔ compareValue b a > 0)) ∧
      (compareValue a b < 0 → compareValue b c < 0 → compareValue a c < 0) := by
  intro a b c
  refine ⟨?_, ?_, ?_⟩
  · intro h
    exact compareValue_refl (sizeOf a) a (Nat.le_refl _) h
  · intro hga hgb
    have hf := compareValue_flip (sizeOf a + sizeOf b) a b (Nat.le_refl _)
      hga hgb
    omega
  · exact compareValue_trans (sizeOf a + sizeOf b + sizeOf c) a b c
      (Nat.le_refl _)

/-- Witness for the amended C1 at concrete values. -/
theorem C1_amended_witness :
    (compareValue (.num (.val 1)) (.num (.val 1)) = 0) ∧
    (compareValue (.num (.val 1)) (.str "x") < 0 ↔
      compareValue (.str "x") (.num (.val 1)) > 0) ∧
    (compareValue (.num (.val 1)) (.num (.val 2)) < 0 →
      compareValue (.num (.val 2)) (.num (.val 3)) < 0 →
      compareValue (.num (.val 1)) (.num (.val 3)) < 0) :=
  ⟨(C1_amended_strict_total_order (.num (.val 1)) (.str "x")
      (.num (.val 1))).1 (by simp [nanFree]),
   (C1_amended_strict_total_order (.num (.val 1)) (.str "x")
      (.num (.val 1))).2.1 (by simp [goodLit]) (by simp [goodLit]),
   (C1_amended_strict_total_order (.num (.val 1)) (.num (.val 2))
      (.num (.val 3))).2.2⟩

/-- C2, counterexample: for a concrete root whose child also appears as an
input root, the child's identity is a strict descendant of the root, yet
the returned retained-identity set (`mask`) DOES contain the child's
identity — `nestItems` adds the identity of every input root to `mask`
before filtering, so the claim's "not C1's identity" part is false. -/
theorem C2_counterexample :
    listId (SListItem.mk "f.md" 1 1 "child" "-" " " []) ∈
      listChildren (SListItem.mk "f.md" 0 1 "parent" "-" " "
        [SListItem.mk "f.md" 1 1 "child" "-" " " []]) [] ∧
    ((nestItems [SListItem.mk "f.md" 0 1 "parent" "-" " "
        [SListItem.mk "f.md" 1 1 "child" "-" " " []],
      SListItem.mk "f.md" 1 1 "child" "-" " " []]).2).contains
        (listId (SListItem.mk "f.md" 1 1 "child" "-" " " [])) = true := by
  constructor
  · simp only [listChildren, listChildrenList, setAdd, listId,
      SListItem.children, SListItem.path, SListItem.line]
    decide
  · simp only [nestItems, listChildren, listChildrenList, setAdd, listId,
      SListItem.path, SListItem.line, SListItem.children, List.foldl]
    decide

/-- C2, amended: given root `r` with `c`'s identity a strict descendant of
`r` (and `r`'s own identity not occurring among the collected descendant
identities), `nestItems [r, c]` returns `filtered = [r]`, and the returned
retained-identity set contains BOTH `r`'s and `c`'s identities (it holds
the identity of every input root). -/
theorem C2_amended_nestItems (r c : SListItem)
    (hdesc : listId c ∈ listChildren r [])
    (hroot : listId r ∉ listChildren c (listChildren r [])) :
    (nestItems [r, c]).1 = [r] ∧
    listId r ∈ (nestItems [r, c]).2 ∧ listId c ∈ (nestItems [r, c]).2 := by
  have hseen : listId c ∈ listChildren c (listChildren r []) := by
    rw [listChildren]
    exact mem_listChildrenList_mono (sizeOf c.children) c.children _ _
      (Nat.le_refl _) hdesc
  unfold nestItems
  simp only [List.foldl_cons, List.foldl_nil]
  refine ⟨?_, ?_, ?_⟩
  · simp [List.filter_cons, List.filter_nil, hroot, hseen]
  · simp [mem_setAdd]
  · simp [mem_setAdd]

/-- Witness for the amended C2 at the concrete root/child pair. -/
theorem C2_amended_witness :
    (nestItems [SListItem.mk "f.md" 0 1 "parent" "-" " "
        [SListItem.mk "f.md" 1 1 "child" "-" " " []],
      SListItem.mk "f.md" 1 1 "child" "-" " " []]).1 =
      [SListItem.mk "f.md" 0 1 "parent" "-" " "
        [SListItem.mk "f.md" 1 1 "child" "-" " " []]] ∧
    listId (SListItem.mk "f.md" 0 1 "parent" "-" " "
        [SListItem.mk "f.md" 1 1 "child" "-" " " []]) ∈
      (nestItems [SListItem.mk "f.md" 0 1 "parent" "-" " "
        [SListItem.mk "f.md" 1 1 "child" "-" " " []],
      SListItem.mk "f.md" 1 1 "child" "-" " " []]).2 ∧
    listId (SListItem.mk "f.md" 1 1 "child" "-" " " []) ∈
      (nestItems [SListItem.mk "f.md" 0 1 "parent" "-" " "
        [SListItem.mk "f.md" 1 1 "child" "-" " " []],
      SListItem.mk "f.md" 1 1 "child" "-" " " []]).2 :=
  C2_amended_nestItems
    (SListItem.mk "f.md" 0 1 "parent" "-" " "
      [SListItem.mk "f.md" 1 1 "child" "-" " " []])
    (SListItem.mk "f.md" 1 1 "child" "-" " " [])
    (by
      simp only [listChildren, listChildrenList, setAdd, listId,
        SListItem.children, SListItem.path, SListItem.line]
      decide)
    (by
      simp only [listChildren, listChildrenList, setAdd, listId,
        SListItem.children, SListItem.path, SListItem.line]
      decide)

/-- C3, evaluation at the failing input: `setTaskCompletion(text, key,
false)` does NOT remove trailing blank lines.  `trimEndingLines` computes
the trim index but then joins ALL split parts (`parts.join("\n")` at
task-view.tsx:212), so `"buy milk\n"` keeps its trailing empty line instead
of becoming `"buy milk"` — contradicting the function's own doc comment
("Trim empty ending lines.") and the claim. -/
theorem C3_code_eval :
    setTaskCompletion "buy milk\n" "completion" false = "buy milk\n" ∧
    setTaskCompletion "buy milk\n" "completion" false ≠ "buy milk" := by
  decide

/-- C4, counterexample: the array case returns `f1.length - f2.length`
after an all-equal shared prefix, so comparing `[]` with a two-element
array yields `-2`, which is not a member of `{-1, 0, 1}`. -/
theorem C4_counterexample :
    compareValue (.arr []) (.arr [.num (.val 1), .num (.val 2)]) = -2 := by
  simp [compareValue, compareCore, coerceUndef, compareList]

/-- C4, amended: `compareValue` returns a member of `{-1, 0, 1}` whenever
its two arguments are not both classified as arrays and not both classified
as objects; for two arrays (or two objects) only the sign is meaningful —
with an all-equal shared prefix the signed length difference of the arrays
(respectively of the sorted key lists) is returned, e.g.
`compareValue([], [1,2]) = -2`. -/
theorem C4_amended_range :
    ∀ a b : Literal, ¬(tagOf a = "array" ∧ tagOf b = "array") →
      ¬(tagOf a = "object" ∧ tagOf b = "object") →
      compareValue a b = -1 ∨ compareValue a b = 0 ∨ compareValue a b = 1 := by
  intro a b h1 h2
  cases a <;> cases b <;>
    simp_all [compareValue, compareCore, coerceUndef, tagOf] <;>
    first
      | exact strCmp_cases _ _
      | exact numCmp_cases _ _
      | exact boolCmp_cases _ _
      | exact dateCmp_cases _ _
      | exact durCmp_cases _ _
      | exact linkCmp_cases _ _

/-- Witness for the amended C4 at a concrete non-array pair. -/
theorem C4_amended_witness :
    compareValue (.str "a") (.num (.val 1)) = -1 ∨
    compareValue (.str "a") (.num (.val 1)) = 0 ∨
    compareValue (.str "a") (.num (.val 1)) = 1 :=
  C4_amended_range (.str "a") (.num (.val 1)) (by simp [tagOf])
    (by simp [tagOf])

/-- C5: `null` is the maximum element of the order: for every non-null
value `a` (after the `undefined`-to-`null` coercion),
`compareValue a null < 0` and `compareValue null a > 0`;
`compareValue null null = 0`; and `undefined` is coerced to `null` before
comparison, in either argument position. -/
theorem C5_null_maximum :
    (∀ a : Literal, a ≠ .null → a ≠ .undef →
      compareValue a .null < 0 ∧ compareValue .null a > 0) ∧
    compareValue .null .null = 0 ∧
    (∀ b : Literal, compareValue .undef b = compareValue .null b ∧
      compareValue b .undef = compareValue b .null) := by
  refine ⟨?_, ?_, ?_⟩
  · intro a h1 h2
    constructor <;> (cases a <;> simp_all [compareValue, compareCore, coerceUndef])
  · simp [compareValue, compareCore, coerceUndef]
  · intro b
    constructor <;> (cases b <;> simp [compareValue, compareCore, coerceUndef])

/-- Witness for C5 at a concrete non-null value. -/
theorem C5_null_maximum_witness :
    compareValue (.num (.val 3)) .null < 0 ∧
    compareValue .null (.num (.val 3)) > 0 :=
  C5_null_maximum.1 (.num (.val 3)) (fun h => Literal.noConfusion h)
    (fun h => Literal.noConfusion h)

/-- C6: `rewriteTask` leaves the document store unchanged (and never
reaches the write) whenever any staleness guard fails: the cached line
number exceeds the current line count, the addressed line fails the
list-item grammar or captures an empty body, or the trimmed first line of
the cached node's text differs from the trimmed freshly captured body. -/
theorem C6_stale_guards_no_write (vault : String → String) (task : SListItem)
    (ds : String) (dt : Option String)
    (h : (splitLines (vault task.path)).length < task.line ∨
      listItemBody ((splitLines (vault task.path)).getD task.line
        "undefined") = none ∨
      (∃ b, listItemBody ((splitLines (vault task.path)).getD task.line
          "undefined") = some b ∧
        (b.length = 0 ∨ jsTrim ((splitNL task.text).getD 0 "") ≠ jsTrim b))) :
    (∀ t, rewriteTask (vault task.path) task ds dt ≠ .write t) ∧
    rewriteTaskVault vault task ds dt = vault := by
  have key : rewriteTask (vault task.path) task ds dt = .noop ∨
      rewriteTask (vault task.path) task ds dt = .abortAfterRead := by
    unfold rewriteTask
    by_cases hn : ds = task.status ∧ (dt = none ∨ dt = some task.text)
    · rw [if_pos hn]; left; rfl
    · rw [if_neg hn]
      simp only []
      by_cases hL : (splitLines (vault task.path)).length < task.line
      · rw [if_pos hL]; right; rfl
      · rw [if_neg hL]
        rcases h with hlt | hnone | hsome
        · exact absurd hlt hL
        · rw [hnone]; right; rfl
        · obtain ⟨b, hb, hrest⟩ := hsome
          rw [hb]
          simp only []
          by_cases hz : b.length = 0
          · rw [if_pos hz]; right; rfl
          · rw [if_neg hz]
            rcases hrest with hlen | htrim
            · exact absurd hlen hz
            · rw [if_pos htrim]; right; rfl
  constructor
  · intro t ht
    rcases key with k | k <;> rw [k] at ht <;> exact RewriteResult.noConfusion ht
  · unfold rewriteTaskVault
    rcases key with k | k <;> rw [k]

/-- Witness for C6: a node whose cached text no longer matches the live
line is not written. -/
theorem C6_stale_guards_witness :
    (∀ t, rewriteTask ((fun _ => "- [ ] milk")
      (SListItem.mk "f.md" 0 1 "different" "-" " " []).path)
      (SListItem.mk "f.md" 0 1 "different" "-" " " []) "X" none ≠ .write t) ∧
    rewriteTaskVault (fun _ => "- [ ] milk")
      (SListItem.mk "f.md" 0 1 "different" "-" " " []) "X" none =
      (fun _ => "- [ ] milk") :=
  C6_stale_guards_no_write (fun _ => "- [ ] milk")
    (SListItem.mk "f.md" 0 1 "different" "-" " " []) "X" none
    (Or.inr (Or.inr ⟨"milk", by decide, Or.inr (by decide)⟩))

/-- C7, counterexample: supplying the EMPTY replacement text does not
splice — JS `if (desiredText)` treats `""` as falsy, so the status-only
branch runs and the original first line's text is kept, not the claimed
`<indent><marker> [<status>] <firstLine-of-replacement>`. -/
theorem C7_counterexample :
    rewriteTask "- [ ] buy milk"
      (SListItem.mk "f.md" 0 1 "buy milk" "-" " " []) "X" (some "") =
      .write "- [X] buy milk" ∧
    rewriteTask "- [ ] buy milk"
      (SListItem.mk "f.md" 0 1 "buy milk" "-" " " []) "X" (some "") ≠
      .write "- [X] " := by
  decide

/-- C7, amended: when `rewriteTask` is called with NON-EMPTY replacement
text and all guards pass, exactly `lineCount` original lines starting at
the addressed line are replaced by the splice: line 0 of the replacement
becomes `<indent><marker> [<status>] <firstLine>` (with the empty desired
status canonicalized to a space), each subsequent replacement line becomes
`<indent><tab><line>`, and the document is re-joined with the detected line
ending (CRLF if the original text contains a carriage return, else LF). -/
theorem C7_amended_splice (doc : String) (task : SListItem) (ds dt b : String)
    (hne : dt ≠ "")
    (hnoop : ¬(ds = task.status ∧ dt = task.text))
    (hbound : ¬(splitLines doc).length < task.line)
    (hbody : listItemBody ((splitLines doc).getD task.line "undefined") =
      some b)
    (hbne : b.length ≠ 0)
    (htrim : jsTrim ((splitNL task.text).getD 0 "") = jsTrim b) :
    rewriteTask doc task ds (some dt) =
      .write (String.intercalate (if hasCR doc then "\r\n" else "\n")
        ((splitLines doc).take task.line ++
          ((leadingWs ((splitLines doc).getD task.line "undefined") ++
              task.symbol ++ " [" ++ (if ds = "" then " " else ds) ++ "] " ++
              (splitNL dt).getD 0 "") ::
            ((splitNL dt).drop 1).map
              (fun l => leadingWs ((splitLines doc).getD task.line
                "undefined") ++ "\t" ++ l)) ++
          (splitLines doc).drop (task.line + task.lineCount))) := by
  unfold rewriteTask
  rw [if_neg (by simp only [Option.some.injEq]; tauto)]
  simp only []
  rw [if_neg hbound, hbody]
  simp only []
  rw [if_neg hbne]
  rw [if_neg (by rw [htrim]; simp)]
  rw [if_pos hne]

/-- Witness for the amended C7: a two-line task body replaced by three new
lines splices exactly `lineCount = 2` original lines and reindents the
continuation lines with one tab. -/
theorem C7_amended_witness :
    rewriteTask "- [ ] a\n\tb\nrest"
      (SListItem.mk "f.md" 0 2 "a\nb" "-" " " []) "X" (some "p\nq\nr") =
      .write "- [X] p\n\tq\n\tr\nrest" := by
  have h := C7_amended_splice "- [ ] a\n\tb\nrest"
    (SListItem.mk "f.md" 0 2 "a\nb" "-" " " []) "X" "p\nq\nr" "a"
    (by decide) (by decide) (by decide) (by decide) (by decide) (by decide)
  rw [h]
  rfl

/-- C8: when the desired status equals the node's current status and either
no replacement text is requested or it equals the node's current text,
`rewriteTask` returns before any I/O (`noop`) and the document store is
unchanged. -/
theorem C8_noop_precondition (vault : String → String) (task : SListItem)
    (ds : String) (dt : Option String)
    (h1 : ds = task.status) (h2 : dt = none ∨ dt = some task.text) :
    rewriteTask (vault task.path) task ds dt = .noop ∧
    rewriteTaskVault vault task ds dt = vault := by
  have hr : rewriteTask (vault task.path) task ds dt = .noop := by
    unfold rewriteTask
    rw [if_pos ⟨h1, h2⟩]
  refine ⟨hr, ?_⟩
  unfold rewriteTaskVault
  rw [hr]

/-- Witness for C8 at a concrete store and node. -/
theorem C8_noop_witness :
    rewriteTask ((fun _ => "- [ ] milk")
      (SListItem.mk "f.md" 0 1 "milk" "-" " " []).path)
      (SListItem.mk "f.md" 0 1 "milk" "-" " " []) " " none = .noop ∧
    rewriteTaskVault (fun _ => "- [ ] milk")
      (SListItem.mk "f.md" 0 1 "milk" "-" " " []) " " none =
      (fun _ => "- [ ] milk") :=
  C8_noop_precondition (fun _ => "- [ ] milk")
    (SListItem.mk "f.md" 0 1 "milk" "-" " " []) " " none rfl (Or.inl rfl)

/-- C9: `Link.equals` compares exactly the triple (path, type, subpath) —
`display` and `embed` are excluded — and in particular
`Link.file("a.md", true, "X").equals(Link.file("a.md", false, "Y"))` is
`true`. -/
theorem C9_link_equality :
    (∀ a b : Link, a.equals b = true ↔
      (a.path = b.path ∧ a.type = b.type ∧ a.subpath = b.subpath)) ∧
    (Link.file "a.md" true (some "X")).equals
      (Link.file "a.md" false (some "Y")) = true := by
  constructor
  · intro a b
    simp [Link.equals]
    tauto
  · decide

/-- C10, counterexample: `isGrouping` does NOT throw for every sequence
containing a null element: the loop returns `false` at the first non-group
element, so `[5, null]` returns `false` without ever reaching the null. -/
theorem C10_counterexample :
    isGrouping [.num (.val 5), .null] = .ok false := by
  rfl

/-- C10, amended: `isObject(null)` is true and `isElementGroup(null)`
throws a `TypeError` (from `Object.keys(null)`); consequently `isGrouping`
throws for any sequence in which every element BEFORE some null is an
element group (in particular `[null]`), while a sequence where a non-group
element precedes every null returns `false` without throwing. -/
theorem C10_amended_throw :
    isObject .null = true ∧
    isElementGroup .null = .error "TypeError" ∧
    ∀ pre post : List Literal, (∀ e ∈ pre, isElementGroup e = .ok true) →
      isGrouping (pre ++ .null :: post) = .error "TypeError" := by
  refine ⟨rfl, rfl, ?_⟩
  intro pre post hpre
  induction pre with
  | nil => rfl
  | cons e rest ih =>
    have he : isElementGroup e = .ok true := hpre e (List.mem_cons_self e rest)
    rw [List.cons_append, isGrouping, he]
    simp only [Bool.not_true, Bool.false_eq_true, if_false]
    exact ih (fun x hx => hpre x (List.mem_cons_of_mem e hx))

/-- Witness for the amended C10: a genuine group record followed by `null`
makes `isGrouping` throw. -/
theorem C10_amended_witness :
    isGrouping ([Literal.obj [("key", Literal.null),
      ("rows", Literal.arr [])]] ++ Literal.null :: []) =
      .error "TypeError" :=
  C10_amended_throw.2.2 [Literal.obj [("key", Literal.null),
    ("rows", Literal.arr [])]] []
    (by
      intro e he
      rcases List.mem_singleton.1 he with rfl
      rfl)
